import Mathlib

set_option linter.unusedVariables false

/-!
Verification of the object lifecycle and dependency-aware operation scheduler
of src/bindings/gumjs/gumv8object.cpp.

The C code is embedded shallowly as a transition system over `ManagerState`:
each C function that mutates scheduler state becomes a Lean function on
`ManagerState`, and the asynchronous events (registration, operation
creation with a dependency array, job completion delivered on the script
thread, weak-notification of a wrapper, cancellation, teardown) become the
`Event` type, with `step` executing one event under its enabling condition.
Heap records addressed by pointer in C (objects, operations) are addressed
by natural-number ids in total maps.
-/

namespace GumV8Object

/-- Pointwise update of a total map; models in-place mutation of one heap
record addressed by its id. -/
def upd {α : Type} (f : Nat → α) (i : Nat) (v : α) : Nat → α :=
  fun j => if j = i then v else f j

/-- The scheduler-visible fields of a `GumV8Object<O, M>` (gumv8object.h /
`_gum_v8_object_manager_add`): the active-operation counter
`num_active_operations`, the FIFO `pending_operations` queue (head = front),
and the per-object `cancellable` token, modelled as the Bool `cancelled`. -/
structure AnyObject where
  num_active_operations : Nat
  pending_operations : List Nat
  cancelled : Bool
deriving DecidableEq

/-- Lifecycle position of a `GumV8ObjectOperation`: `created` = allocated but
neither queued nor started (possibly waiting on pending dependencies),
`queued` = sitting in its owner's `pending_operations`, `running` = its job
has been started (`_gum_v8_object_operation_schedule` ran), `freed` = its job
finished and `gum_v8_object_operation_free` ran. -/
inductive OpStatus where
  | created
  | queued
  | running
  | freed
deriving DecidableEq

/-- The scheduler-visible fields of a `GumV8ObjectOperation<O, M>`:
`object` is the owner's handle, `pending_dependencies` the GSList of
outstanding probe-operation ids (prepended, so newest first),
`blocked_operation` is `some b` exactly for a `GumV8TryScheduleIfIdleOperation`
probe whose blocked operation is `b`, `has_cleanup` records whether a cleanup
callback was registered (`op->cleanup != NULL`). -/
structure AnyOperation where
  object : Nat
  pending_dependencies : List Nat
  blocked_operation : Option Nat
  has_cleanup : Bool
  status : OpStatus
deriving DecidableEq

/-- The micro-actions performed by `gum_v8_object_operation_free`, in source
order: run the registered cleanup, release the captured persistent references
(`delete op->wrapper; delete op->callback`), decrement the owner's
`num_active_operations`, possibly pop and schedule the head of the owner's
queue, release the runtime pin (`_gum_v8_core_unpin`). -/
inductive FreeAction where
  | runCleanup
  | releaseRefs
  | decrementCount
  | scheduleNext
  | releasePin
deriving DecidableEq

/-- Global scheduler state: the `GumV8ObjectManager` registry (the set of
handles present in `object_by_handle`), the per-handle object records, the
per-id operation records, the set of live (allocated, not yet freed)
operation ids, an allocation counter for fresh ids, the runtime pin count of
`GumV8Core` (`_gum_v8_core_pin` / `_gum_v8_core_unpin`), the number of live
module operations, the manager-wide cancellable, and a ghost counter of how
many times `gum_v8_object_free` has destroyed an object. -/
structure ManagerState where
  object_by_handle : List Nat
  objs : Nat → AnyObject
  ops : Nat → AnyOperation
  live_ops : List Nat
  next_op : Nat
  pins : Nat
  module_ops : Nat
  manager_cancelled : Bool
  freed_objects : Nat

/-- `gum_v8_object_manager_init`: empty registry, fresh cancellable. -/
def initState : ManagerState where
  object_by_handle := []
  objs := fun _ => { num_active_operations := 0, pending_operations := [], cancelled := false }
  ops := fun _ => { object := 0, pending_dependencies := [], blocked_operation := none,
                    has_cleanup := false, status := OpStatus.freed }
  live_ops := []
  next_op := 0
  pins := 0
  module_ops := 0
  manager_cancelled := false
  freed_objects := 0

/-- `_gum_v8_object_manager_add`: allocates a fresh object (counter 0, empty
queue, fresh cancellable) and `g_hash_table_insert`s it keyed by `handle`.
`g_hash_table_insert` on a key that is already present keeps the key but
replaces the value, destroying the previous value with the table's
value-destroy function `gum_v8_object_free` (tracked by the ghost counter
`freed_objects`); there is no failure path. -/
def gum_v8_object_manager_add (s : ManagerState) (handle : Nat) : ManagerState :=
  { s with
    objs := upd s.objs handle
      { num_active_operations := 0, pending_operations := [], cancelled := false }
    object_by_handle :=
      if handle ∈ s.object_by_handle then s.object_by_handle else handle :: s.object_by_handle
    freed_objects :=
      if handle ∈ s.object_by_handle then s.freed_objects + 1 else s.freed_objects }

/-- `_gum_v8_object_manager_lookup`: pure registry read. -/
def gum_v8_object_manager_lookup (s : ManagerState) (handle : Nat) : Bool :=
  handle ∈ s.object_by_handle

/-- `gum_v8_object_manager_cancel`: looks the handle up; if absent returns
FALSE leaving the state untouched, otherwise `g_cancellable_cancel`s that
object's token and returns TRUE. -/
def gum_v8_object_manager_cancel (s : ManagerState) (handle : Nat) : Bool × ManagerState :=
  if handle ∈ s.object_by_handle then
    (true, { s with objs := upd s.objs handle { s.objs handle with cancelled := true } })
  else
    (false, s)

/-- `gum_v8_object_manager_flush`: iterates over the registry cancelling every
object's cancellable, then cancels the manager-wide cancellable. -/
def gum_v8_object_manager_flush (s : ManagerState) : ManagerState :=
  { s with
    objs := fun h => if h ∈ s.object_by_handle then { s.objs h with cancelled := true } else s.objs h
    manager_cancelled := true }

/-- `gum_v8_object_manager_free`: `g_hash_table_remove_all` destroys every
entry through `gum_v8_object_free` and empties the registry. -/
def gum_v8_object_manager_free (s : ManagerState) : ManagerState :=
  { s with
    object_by_handle := []
    freed_objects := s.freed_objects + s.object_by_handle.length }

/-- `gum_v8_object_on_weak_notify`: the wrapper's weak (finalizer) callback
removes the entry from the registry, destroying the object through
`gum_v8_object_free`. -/
def gum_v8_object_on_weak_notify (s : ManagerState) (handle : Nat) : ManagerState :=
  { s with
    object_by_handle := s.object_by_handle.erase handle
    freed_objects := s.freed_objects + 1 }

/-- `_gum_v8_object_operation_new`: allocates the operation record with
`pending_dependencies = NULL`, captures a persistent reference to the owner's
wrapper, creates the job, and pins the core (`_gum_v8_core_pin`). The fresh
id is returned alongside the new state. `blocked` is `some b` when the record
is a `GumV8TryScheduleIfIdleOperation` whose `blocked_operation` is `b`. -/
def gum_v8_object_operation_new (s : ManagerState) (owner : Nat) (blocked : Option Nat)
    (has_cleanup : Bool) : ManagerState × Nat :=
  ({ s with
     ops := upd s.ops s.next_op
       { object := owner, pending_dependencies := [], blocked_operation := blocked,
         has_cleanup := has_cleanup, status := OpStatus.created }
     live_ops := s.live_ops ++ [s.next_op]
     next_op := s.next_op + 1
     pins := s.pins + 1 }, s.next_op)

/-- `_gum_v8_object_operation_schedule`: increments the owner's
`num_active_operations` and starts the job on the JS thread. -/
def gum_v8_object_operation_schedule (s : ManagerState) (i : Nat) : ManagerState :=
  { s with
    objs := upd s.objs (s.ops i).object
      { s.objs (s.ops i).object with
        num_active_operations := (s.objs (s.ops i).object).num_active_operations + 1 }
    ops := upd s.ops i { s.ops i with status := OpStatus.running } }

/-- `gum_v8_object_operation_try_schedule_when_idle`: returns doing nothing
while `pending_dependencies` is non-empty; otherwise schedules immediately if
the owner has no active operations, else `g_queue_push_tail`s the operation
onto the owner's `pending_operations`. -/
def gum_v8_object_operation_try_schedule_when_idle (s : ManagerState) (i : Nat) : ManagerState :=
  if (s.ops i).pending_dependencies ≠ [] then s
  else if (s.objs (s.ops i).object).num_active_operations = 0 then
    gum_v8_object_operation_schedule s i
  else
    { s with
      objs := upd s.objs (s.ops i).object
        { s.objs (s.ops i).object with
          pending_operations := (s.objs (s.ops i).object).pending_operations ++ [i] }
      ops := upd s.ops i { s.ops i with status := OpStatus.queued } }

/-- `gum_v8_object_operation_free` (the job's destroy notify, i.e. operation
completion): asserts `pending_dependencies == NULL`, runs the registered
cleanup if any, releases the captured persistent references, decrements the
owner's `num_active_operations`, and if the counter reached zero pops the
head of the owner's `pending_operations` and schedules it immediately;
finally unpins the core. The second component is the trace of micro-actions
in the order the source performs them. -/
def gum_v8_object_operation_free (s : ManagerState) (i : Nat) : ManagerState × List FreeAction :=
  let op := s.ops i
  let h := op.object
  let n := (s.objs h).num_active_operations - 1
  let s1 : ManagerState :=
    { s with
      ops := upd s.ops i { op with status := OpStatus.freed }
      live_ops := s.live_ops.erase i
      objs := upd s.objs h { s.objs h with num_active_operations := n } }
  let popSched : ManagerState × List FreeAction :=
    if n = 0 then
      match (s1.objs h).pending_operations with
      | [] => (s1, [])
      | next :: rest =>
        (gum_v8_object_operation_schedule
          { s1 with objs := upd s1.objs h { s1.objs h with pending_operations := rest } } next,
         [FreeAction.scheduleNext])
    else (s1, [])
  ({ popSched.1 with pins := popSched.1.pins - 1 },
   (if op.has_cleanup then [FreeAction.runCleanup] else [])
     ++ [FreeAction.releaseRefs, FreeAction.decrementCount]
     ++ popSched.2 ++ [FreeAction.releasePin])

/-- `gum_v8_try_schedule_if_idle_operation_perform` followed by
`gum_v8_object_operation_finish`: on the script thread the probe removes
itself from the blocked operation's `pending_dependencies`
(`g_slist_remove` drops the first occurrence), re-attempts
`try_schedule_when_idle` for the blocked operation, and then finishes, which
frees the probe through `gum_v8_object_operation_free`. -/
def gum_v8_try_schedule_if_idle_operation_perform (s : ManagerState) (p : Nat) : ManagerState :=
  match (s.ops p).blocked_operation with
  | none => s
  | some b =>
    let s1 := { s with
      ops := upd s.ops b
        { s.ops b with pending_dependencies := (s.ops b).pending_dependencies.erase p } }
    let s2 := gum_v8_object_operation_try_schedule_when_idle s1 b
    (gum_v8_object_operation_free s2 p).1

/-- The dependency loop of `_gum_v8_object_operation_schedule_when_idle`: for
each dependency with `num_active_operations > 0`, create a
`GumV8TryScheduleIfIdleOperation` probe owned by that dependency (a plain
`gum_v8_object_operation_new` with no cleanup), record the blocked operation,
prepend the probe to `self`'s `pending_dependencies`, and schedule the probe
when idle. The probe is scheduled through the one-argument convenience form
`gum_v8_object_operation_schedule_when_idle (op)`. Modelled from the spec:
that macro form lives in gumv8object.h (not part of the reviewed sources) and
passes no dependency array, so with `pending_dependencies = NULL` it reduces
to `gum_v8_object_operation_try_schedule_when_idle`. -/
def gum_v8_object_operation_schedule_when_idle_loop (s : ManagerState) (selfId : Nat) :
    List Nat → ManagerState
  | [] => s
  | d :: rest =>
    if 0 < (s.objs d).num_active_operations then
      let created := gum_v8_object_operation_new s d (some selfId) false
      let s2 := { created.1 with
        ops := upd created.1.ops selfId
          { created.1.ops selfId with
            pending_dependencies := created.2 :: (created.1.ops selfId).pending_dependencies } }
      let s3 := gum_v8_object_operation_try_schedule_when_idle s2 created.2
      gum_v8_object_operation_schedule_when_idle_loop s3 selfId rest
    else
      gum_v8_object_operation_schedule_when_idle_loop s selfId rest

/-- `_gum_v8_object_operation_schedule_when_idle`: issue probes for every busy
dependency, then attempt `try_schedule_when_idle` for `self`. -/
def gum_v8_object_operation_schedule_when_idle (s : ManagerState) (selfId : Nat)
    (dependencies : List Nat) : ManagerState :=
  gum_v8_object_operation_try_schedule_when_idle
    (gum_v8_object_operation_schedule_when_idle_loop s selfId dependencies) selfId

/-- `_gum_v8_module_operation_new`: allocates the module operation, captures
the manager-wide cancellable, creates the job and pins the core. Only the
pin/live accounting is scheduler-visible. -/
def gum_v8_module_operation_new (s : ManagerState) : ManagerState :=
  { s with module_ops := s.module_ops + 1, pins := s.pins + 1 }

/-- `gum_v8_module_operation_free`: runs the cleanup, releases the callback
reference and unpins the core. -/
def gum_v8_module_operation_free (s : ManagerState) : ManagerState :=
  { s with module_ops := s.module_ops - 1, pins := s.pins - 1 }

/-- Whether some live operation is owned by `handle`. Every live operation
holds a strong persistent reference to its owner's wrapper
(`op->wrapper = new GumPersistent<Object>::type (isolate, *object->wrapper)`),
so the wrapper cannot become unreachable — and the weak notify cannot fire —
while this is true. -/
def livesOn (s : ManagerState) (handle : Nat) : Bool :=
  s.live_ops.any (fun i => (s.ops i).object = handle)

/-- The script-thread-atomic events of the scheduler. `newOperation` is a
caller invoking `gum_v8_object_operation_new` on a registered object followed
by `_gum_v8_object_operation_schedule_when_idle` with the given dependency
array; `complete` is the completion (job destroy notify) of a running
operation, which for a probe is its `perform` plus `finish`. -/
inductive Event where
  | register (handle : Nat)
  | newOperation (owner : Nat) (dependencies : List Nat) (has_cleanup : Bool)
  | complete (i : Nat)
  | cancel (handle : Nat)
  | flush
  | finalize (handle : Nat)
  | moduleNew
  | moduleComplete
  | teardown

/-- One event of the scheduler, under its enabling condition: handles are
registered fresh (callers register newly created native handles); operations
are created against registered objects with registered dependencies; only
running operations complete; the weak notify fires only when no live
operation pins the wrapper; teardown happens only once operations no longer
hold pins (§5 of the design: the manager must not be freed while operations
are outstanding). -/
def step (s : ManagerState) : Event → Option ManagerState
  | Event.register handle =>
    if handle ∈ s.object_by_handle then none
    else some (gum_v8_object_manager_add s handle)
  | Event.newOperation owner dependencies has_cleanup =>
    if owner ∈ s.object_by_handle ∧ ∀ d ∈ dependencies, d ∈ s.object_by_handle then
      let created := gum_v8_object_operation_new s owner none has_cleanup
      some (gum_v8_object_operation_schedule_when_idle created.1 created.2 dependencies)
    else none
  | Event.complete i =>
    if i ∈ s.live_ops ∧ (s.ops i).status = OpStatus.running then
      match (s.ops i).blocked_operation with
      | some _ => some (gum_v8_try_schedule_if_idle_operation_perform s i)
      | none => some (gum_v8_object_operation_free s i).1
    else none
  | Event.cancel handle => some (gum_v8_object_manager_cancel s handle).2
  | Event.flush => some (gum_v8_object_manager_flush s)
  | Event.finalize handle =>
    if handle ∈ s.object_by_handle ∧ livesOn s handle = false then
      some (gum_v8_object_on_weak_notify s handle)
    else none
  | Event.moduleNew => some (gum_v8_module_operation_new s)
  | Event.moduleComplete =>
    if 0 < s.module_ops then some (gum_v8_module_operation_free s) else none
  | Event.teardown =>
    if s.live_ops = [] ∧ s.module_ops = 0 then some (gum_v8_object_manager_free s) else none

/-- Execute a finite schedule of events, failing if any event is disabled. -/
def run (s : ManagerState) : List Event → Option ManagerState
  | [] => some s
  | e :: es =>
    match step s e with
    | some s1 => run s1 es
    | none => none

/-- A state is reachable when some finite schedule of events produces it from
the freshly initialised manager. -/
def Reachable (s : ManagerState) : Prop :=
  ∃ es, run initState es = some s

/-- `a` occurs strictly before (the first occurrence of) `b` in the list. -/
def precedesIn (a b : Nat) : List Nat → Bool
  | [] => false
  | x :: xs => if x = a then b ∈ xs else precedesIn a b xs

/-- The dependencies for which `_gum_v8_object_operation_schedule_when_idle`
creates a probe: those with a positive active-operation count. -/
def busyDeps (s : ManagerState) (dependencies : List Nat) : List Nat :=
  dependencies.filter (fun d => decide (0 < (s.objs d).num_active_operations))

/-- The operations counted by an object's `num_active_operations`: live
operations owned by `h` whose job has been started and not yet freed. -/
def runningOn (s : ManagerState) (h : Nat) : Nat → Bool :=
  fun i => decide ((s.ops i).object = h ∧ (s.ops i).status = OpStatus.running)

/-- The structural well-formedness invariant of the scheduler state, phrased
over the heap model: live operation ids are allocated and distinct; freed
records stay freed; live operations are owned by registered objects; each
counter equals the number of running operations on that object; queues hold
distinct live queued operations of the right owner; an operation that has
been queued, started or freed has no pending dependencies left; pending
dependencies are live probe operations blocking for exactly this operation,
listed once; probes themselves never carry dependencies. -/
structure CoreInv (s : ManagerState) : Prop where
  live_lt : ∀ i ∈ s.live_ops, i < s.next_op
  live_nodup : s.live_ops.Nodup
  dead_freed : ∀ i, i ∉ s.live_ops → (s.ops i).status = OpStatus.freed
  live_not_freed : ∀ i ∈ s.live_ops, (s.ops i).status ≠ OpStatus.freed
  owner_reg : ∀ i ∈ s.live_ops, (s.ops i).object ∈ s.object_by_handle
  count_eq : ∀ h, (s.objs h).num_active_operations = (s.live_ops.filter (runningOn s h)).length
  queue_mem : ∀ h, ∀ i ∈ (s.objs h).pending_operations,
    i ∈ s.live_ops ∧ (s.ops i).object = h ∧ (s.ops i).status = OpStatus.queued
  queue_nodup : ∀ h, ((s.objs h).pending_operations).Nodup
  started_no_deps : ∀ i, (s.ops i).status ≠ OpStatus.created → (s.ops i).pending_dependencies = []
  deps_live : ∀ i, ∀ p ∈ (s.ops i).pending_dependencies,
    p ∈ s.live_ops ∧ (s.ops p).blocked_operation = some i
  deps_nodup : ∀ i, ((s.ops i).pending_dependencies).Nodup
  probe_no_deps : ∀ p b, (s.ops p).blocked_operation = some b →
    (s.ops p).pending_dependencies = []

/-- Every live probe is recorded in the pending dependencies of the operation
it blocks for (it is removed from that list exactly when it fires and frees). -/
def ProbeInv (s : ManagerState) : Prop :=
  ∀ p ∈ s.live_ops, ∀ b, (s.ops p).blocked_operation = some b →
    p ∈ (s.ops b).pending_dependencies

/-- `ProbeInv` weakened at one operation id: used across the window inside
`gum_v8_try_schedule_if_idle_operation_perform` between the moment the firing
probe has removed itself from the blocked operation's pending dependencies
and the moment it frees itself. -/
def ProbeInvExcept (x : Nat) (s : ManagerState) : Prop :=
  ∀ p ∈ s.live_ops, p ≠ x → ∀ b, (s.ops p).blocked_operation = some b →
    p ∈ (s.ops b).pending_dependencies

/-- The runtime pin count equals the number of live operations of both kinds:
every `_gum_v8_object_operation_new` / `_gum_v8_module_operation_new` pins
once and every free unpins once. -/
def PinInv (s : ManagerState) : Prop :=
  s.pins = s.live_ops.length + s.module_ops

/-- The full inductive invariant. -/
structure Inv (s : ManagerState) : Prop where
  core : CoreInv s
  probe : ProbeInv s
  pin : PinInv s

theorem upd_same {α : Type} (f : Nat → α) (i : Nat) (v : α) : upd f i v i = v := by
  simp [upd]

theorem upd_ne {α : Type} (f : Nat → α) {i j : Nat} (v : α) (h : j ≠ i) : upd f i v j = f j := by
  simp [upd, h]

theorem upd_self {α : Type} (f : Nat → α) (i : Nat) : upd f i (f i) = f := by
  funext j
  by_cases h : j = i <;> simp [upd, h]

/-- Changing the predicate at a single distinguished element of a duplicate-free
list from false to true grows the filtered length by one. -/
theorem length_filter_update_pos {l : List Nat} (hnd : l.Nodup) {i : Nat} (hi : i ∈ l)
    (p q : Nat → Bool) (hcongr : ∀ j ∈ l, j ≠ i → q j = p j)
    (hp : p i = false) (hq : q i = true) :
    (l.filter q).length = (l.filter p).length + 1 := by
  induction l with
  | nil => cases hi
  | cons a t ih =>
    rw [List.nodup_cons] at hnd
    rcases List.mem_cons.1 hi with rfl | hit
    · have ht : t.filter q = t.filter p :=
        List.filter_congr (fun j hj => hcongr j (List.mem_cons_of_mem _ hj)
          (fun hji => hnd.1 (hji ▸ hj)))
      simp [List.filter_cons, hq, hp, ht]
    · have hai : a ≠ i := fun h => hnd.1 (h ▸ hit)
      have ha : q a = p a := hcongr a (List.mem_cons_self _ _) hai
      have ih' := ih hnd.2 hit (fun j hj hji => hcongr j (List.mem_cons_of_mem _ hj) hji)
      by_cases hpa : p a = true <;>
        simp [List.filter_cons, ha, hpa, ih']

/-- Symmetric version: switching the distinguished element off shrinks the
filtered length by one. -/
theorem length_filter_update_neg {l : List Nat} (hnd : l.Nodup) {i : Nat} (hi : i ∈ l)
    (p q : Nat → Bool) (hcongr : ∀ j ∈ l, j ≠ i → q j = p j)
    (hp : p i = true) (hq : q i = false) :
    (l.filter p).length = (l.filter q).length + 1 :=
  length_filter_update_pos hnd hi q p (fun j hj hji => (hcongr j hj hji).symm) hq hp

/-- Erasing an element satisfying the predicate from a duplicate-free list
shrinks the filtered length by one. -/
theorem length_filter_erase {l : List Nat} (hnd : l.Nodup) {i : Nat} (hi : i ∈ l)
    (p : Nat → Bool) (hp : p i = true) :
    ((l.erase i).filter p).length + 1 = (l.filter p).length := by
  induction l with
  | nil => cases hi
  | cons a t ih =>
    rw [List.nodup_cons] at hnd
    by_cases hai : a = i
    · subst hai
      rw [List.erase_cons_head]
      simp [List.filter_cons, hp]
    · have hit : i ∈ t := (List.mem_cons.1 hi).resolve_left (fun h => hai h.symm)
      rw [List.erase_cons_tail]
      · by_cases hpa : p a = true <;> simp [List.filter_cons, hpa, ih hnd.2 hit]
      · simp [hai]

/-- Erasing an element rejected by the predicate leaves the filter unchanged. -/
theorem filter_erase_neg {l : List Nat} {i : Nat} (p : Nat → Bool) (hp : p i = false) :
    (l.erase i).filter p = l.filter p := by
  induction l with
  | nil => rfl
  | cons a t ih =>
    by_cases hai : a = i
    · subst hai
      rw [List.erase_cons_head]
      simp [List.filter_cons, hp]
    · rw [List.erase_cons_tail]
      · by_cases hpa : p a = true <;> simp [List.filter_cons, hpa, ih]
      · simp [hai]

section FieldLemmas

variable (s : ManagerState) (i j h : Nat)

theorem schedule_objs_apply :
    (gum_v8_object_operation_schedule s i).objs h =
      if h = (s.ops i).object then
        { s.objs (s.ops i).object with
          num_active_operations := (s.objs (s.ops i).object).num_active_operations + 1 }
      else s.objs h := rfl

theorem schedule_ops_apply :
    (gum_v8_object_operation_schedule s i).ops j =
      if j = i then { s.ops i with status := OpStatus.running } else s.ops j := rfl

theorem schedule_live : (gum_v8_object_operation_schedule s i).live_ops = s.live_ops := rfl

theorem schedule_next : (gum_v8_object_operation_schedule s i).next_op = s.next_op := rfl

theorem schedule_pins : (gum_v8_object_operation_schedule s i).pins = s.pins := rfl

theorem schedule_module : (gum_v8_object_operation_schedule s i).module_ops = s.module_ops := rfl

theorem schedule_reg :
    (gum_v8_object_operation_schedule s i).object_by_handle = s.object_by_handle := rfl

theorem try_of_pending (hp : (s.ops i).pending_dependencies ≠ []) :
    gum_v8_object_operation_try_schedule_when_idle s i = s := by
  simp [gum_v8_object_operation_try_schedule_when_idle, hp]

theorem try_of_idle (hp : (s.ops i).pending_dependencies = [])
    (hn : (s.objs (s.ops i).object).num_active_operations = 0) :
    gum_v8_object_operation_try_schedule_when_idle s i =
      gum_v8_object_operation_schedule s i := by
  simp [gum_v8_object_operation_try_schedule_when_idle, hp, hn]

theorem try_of_busy (hp : (s.ops i).pending_dependencies = [])
    (hn : (s.objs (s.ops i).object).num_active_operations ≠ 0) :
    gum_v8_object_operation_try_schedule_when_idle s i =
      { s with
        objs := upd s.objs (s.ops i).object
          { s.objs (s.ops i).object with
            pending_operations := (s.objs (s.ops i).object).pending_operations ++ [i] }
        ops := upd s.ops i { s.ops i with status := OpStatus.queued } } := by
  simp [gum_v8_object_operation_try_schedule_when_idle, hp, hn]

theorem new_ops_apply (blocked : Option Nat) (hcl : Bool) :
    (gum_v8_object_operation_new s i blocked hcl).1.ops j =
      if j = s.next_op then
        { object := i, pending_dependencies := [], blocked_operation := blocked,
          has_cleanup := hcl, status := OpStatus.created }
      else s.ops j := rfl

theorem new_objs (blocked : Option Nat) (hcl : Bool) :
    (gum_v8_object_operation_new s i blocked hcl).1.objs = s.objs := rfl

theorem new_live (blocked : Option Nat) (hcl : Bool) :
    (gum_v8_object_operation_new s i blocked hcl).1.live_ops = s.live_ops ++ [s.next_op] := rfl

theorem new_next (blocked : Option Nat) (hcl : Bool) :
    (gum_v8_object_operation_new s i blocked hcl).1.next_op = s.next_op + 1 := rfl

theorem new_id (blocked : Option Nat) (hcl : Bool) :
    (gum_v8_object_operation_new s i blocked hcl).2 = s.next_op := rfl

theorem new_reg (blocked : Option Nat) (hcl : Bool) :
    (gum_v8_object_operation_new s i blocked hcl).1.object_by_handle = s.object_by_handle := rfl

end FieldLemmas

/-- `_gum_v8_object_operation_schedule` preserves the structural invariant
when applied to a live, not-yet-started operation that sits in no queue and
has no pending dependencies. -/
theorem core_schedule {s : ManagerState} {i : Nat} (hc : CoreInv s)
    (hlive : i ∈ s.live_ops)
    (hstat : (s.ops i).status = OpStatus.created ∨ (s.ops i).status = OpStatus.queued)
    (hnq : ∀ h, i ∉ (s.objs h).pending_operations)
    (hdeps : (s.ops i).pending_dependencies = []) :
    CoreInv (gum_v8_object_operation_schedule s i) := by
  refine ⟨?_, ?_, ?_, ?_, ?_, ?_, ?_, ?_, ?_, ?_, ?_, ?_⟩
  · simpa [schedule_live, schedule_next] using hc.live_lt
  · simpa [schedule_live] using hc.live_nodup
  · intro j hj
    rw [schedule_live] at hj
    rw [schedule_ops_apply]
    have hji : j ≠ i := fun e => hj (e ▸ hlive)
    simp [hji, hc.dead_freed j hj]
  · intro j hj
    rw [schedule_live] at hj
    rw [schedule_ops_apply]
    by_cases hji : j = i
    · simp [hji]
    · simp only [if_neg hji]
      exact hc.live_not_freed j hj
  · intro j hj
    rw [schedule_live] at hj
    rw [schedule_ops_apply, schedule_reg]
    by_cases hji : j = i
    · subst hji
      simpa using hc.owner_reg j hj
    · simp only [if_neg hji]
      exact hc.owner_reg j hj
  · intro h
    rw [schedule_live, schedule_objs_apply]
    by_cases hh : h = (s.ops i).object
    · subst hh
      rw [if_pos rfl]
      have hpi : runningOn s (s.ops i).object i = false := by
        rcases hstat with h1 | h1 <;> simp [runningOn, h1]
      have hqi : runningOn (gum_v8_object_operation_schedule s i) (s.ops i).object i = true := by
        simp [runningOn, schedule_ops_apply]
      have hcongr : ∀ j ∈ s.live_ops, j ≠ i →
          runningOn (gum_v8_object_operation_schedule s i) (s.ops i).object j =
            runningOn s (s.ops i).object j := by
        intro j hj hji
        simp [runningOn, schedule_ops_apply, hji]
      show (s.objs (s.ops i).object).num_active_operations + 1 = _
      rw [length_filter_update_pos hc.live_nodup hlive _ _ hcongr hpi hqi, hc.count_eq]
    · rw [if_neg hh]
      have hcongr : ∀ j ∈ s.live_ops,
          runningOn (gum_v8_object_operation_schedule s i) h j = runningOn s h j := by
        intro j hj
        by_cases hji : j = i
        · rw [hji]
          have hno : ¬ (s.ops i).object = h := fun e => hh e.symm
          simp [runningOn, schedule_ops_apply, hno]
        · simp [runningOn, schedule_ops_apply, hji]
      rw [List.filter_congr hcongr]
      exact hc.count_eq h
  · intro h j hj
    rw [schedule_objs_apply] at hj
    rw [schedule_live, schedule_ops_apply]
    have hjq : j ∈ (s.objs h).pending_operations := by
      by_cases hh : h = (s.ops i).object
      · subst hh
        simpa using hj
      · simpa [hh] using hj
    have hji : j ≠ i := fun e => hnq h (e ▸ hjq)
    simp only [if_neg hji]
    exact hc.queue_mem h j hjq
  · intro h
    rw [schedule_objs_apply]
    by_cases hh : h = (s.ops i).object
    · subst hh
      simpa using hc.queue_nodup (s.ops i).object
    · rw [if_neg hh]
      exact hc.queue_nodup h
  · intro j hj
    rw [schedule_ops_apply] at hj ⊢
    by_cases hji : j = i
    · subst hji
      simpa using hdeps
    · simp only [if_neg hji] at hj ⊢
      exact hc.started_no_deps j hj
  · intro j p hp
    rw [schedule_ops_apply] at hp
    rw [schedule_live, schedule_ops_apply]
    have hdl : p ∈ (s.ops j).pending_dependencies := by
      by_cases hji : j = i
      · rw [if_pos hji] at hp
        rw [hji]
        simpa using hp
      · rwa [if_neg hji] at hp
    obtain ⟨hpl, hpb⟩ := hc.deps_live j p hdl
    refine ⟨hpl, ?_⟩
    by_cases hpi : p = i
    · rw [if_pos hpi]
      rw [hpi] at hpb
      simpa using hpb
    · simp only [if_neg hpi]
      exact hpb
  · intro j
    rw [schedule_ops_apply]
    by_cases hji : j = i
    · rw [if_pos hji]
      simpa using hc.deps_nodup i
    · rw [if_neg hji]
      exact hc.deps_nodup j
  · intro p b hpb
    rw [schedule_ops_apply] at hpb ⊢
    by_cases hpi : p = i
    · rw [if_pos hpi] at hpb ⊢
      simp only at hpb ⊢
      exact hc.probe_no_deps i b hpb
    · simp only [if_neg hpi] at hpb ⊢
      exact hc.probe_no_deps p b hpb

theorem probe_schedule {s : ManagerState} {i : Nat} (hp : ProbeInv s) :
    ProbeInv (gum_v8_object_operation_schedule s i) := by
  intro p hpl b hpb
  rw [schedule_live] at hpl
  rw [schedule_ops_apply] at hpb
  rw [schedule_ops_apply]
  have hb : (s.ops p).blocked_operation = some b := by
    by_cases hpi : p = i
    · subst hpi
      simpa using hpb
    · simpa [hpi] using hpb
  have hin := hp p hpl b hb
  by_cases hbi : b = i
  · subst hbi
    simpa using hin
  · simpa [hbi] using hin

theorem pin_schedule {s : ManagerState} {i : Nat} (hp : PinInv s) :
    PinInv (gum_v8_object_operation_schedule s i) := hp

section PushLemmas

variable (s : ManagerState) (i j h : Nat)

theorem push_objs_apply (hp : (s.ops i).pending_dependencies = [])
    (hn : (s.objs (s.ops i).object).num_active_operations ≠ 0) :
    (gum_v8_object_operation_try_schedule_when_idle s i).objs h =
      if h = (s.ops i).object then
        { s.objs (s.ops i).object with
          pending_operations := (s.objs (s.ops i).object).pending_operations ++ [i] }
      else s.objs h := by
  rw [try_of_busy s i hp hn]
  rfl

theorem push_ops_apply (hp : (s.ops i).pending_dependencies = [])
    (hn : (s.objs (s.ops i).object).num_active_operations ≠ 0) :
    (gum_v8_object_operation_try_schedule_when_idle s i).ops j =
      if j = i then { s.ops i with status := OpStatus.queued } else s.ops j := by
  rw [try_of_busy s i hp hn]
  rfl

theorem push_live (hp : (s.ops i).pending_dependencies = [])
    (hn : (s.objs (s.ops i).object).num_active_operations ≠ 0) :
    (gum_v8_object_operation_try_schedule_when_idle s i).live_ops = s.live_ops := by
  rw [try_of_busy s i hp hn]

theorem push_next (hp : (s.ops i).pending_dependencies = [])
    (hn : (s.objs (s.ops i).object).num_active_operations ≠ 0) :
    (gum_v8_object_operation_try_schedule_when_idle s i).next_op = s.next_op := by
  rw [try_of_busy s i hp hn]

theorem push_reg (hp : (s.ops i).pending_dependencies = [])
    (hn : (s.objs (s.ops i).object).num_active_operations ≠ 0) :
    (gum_v8_object_operation_try_schedule_when_idle s i).object_by_handle =
      s.object_by_handle := by
  rw [try_of_busy s i hp hn]

end PushLemmas

/-- `gum_v8_object_operation_try_schedule_when_idle` preserves the structural
invariant when applied to a live, not-yet-started operation. -/
theorem core_try {s : ManagerState} {i : Nat} (hc : CoreInv s)
    (hlive : i ∈ s.live_ops)
    (hstat : (s.ops i).status = OpStatus.created) :
    CoreInv (gum_v8_object_operation_try_schedule_when_idle s i) := by
  have hnq : ∀ h, i ∉ (s.objs h).pending_operations := by
    intro h hq
    have hq2 := (hc.queue_mem h i hq).2.2
    rw [hstat] at hq2
    simp at hq2
  by_cases hpd : (s.ops i).pending_dependencies = []
  · by_cases hn : (s.objs (s.ops i).object).num_active_operations = 0
    · rw [try_of_idle s i hpd hn]
      exact core_schedule hc hlive (Or.inl hstat) hnq hpd
    · refine ⟨?_, ?_, ?_, ?_, ?_, ?_, ?_, ?_, ?_, ?_, ?_, ?_⟩
      · simpa [push_live s i hpd hn, push_next s i hpd hn] using hc.live_lt
      · simpa [push_live s i hpd hn] using hc.live_nodup
      · intro j hj
        rw [push_live s i hpd hn] at hj
        rw [push_ops_apply s i j hpd hn]
        have hji : j ≠ i := fun e => hj (e ▸ hlive)
        simp [hji, hc.dead_freed j hj]
      · intro j hj
        rw [push_live s i hpd hn] at hj
        rw [push_ops_apply s i j hpd hn]
        by_cases hji : j = i
        · simp [hji]
        · simp only [if_neg hji]
          exact hc.live_not_freed j hj
      · intro j hj
        rw [push_live s i hpd hn] at hj
        rw [push_ops_apply s i j hpd hn, push_reg s i hpd hn]
        by_cases hji : j = i
        · rw [if_pos hji]
          rw [hji] at hj
          simpa using hc.owner_reg i hj
        · simp only [if_neg hji]
          exact hc.owner_reg j hj
      · intro h
        rw [push_live s i hpd hn, push_objs_apply s i h hpd hn]
        have hcongr : ∀ j ∈ s.live_ops,
            runningOn (gum_v8_object_operation_try_schedule_when_idle s i) h j =
              runningOn s h j := by
          intro j hj
          by_cases hji : j = i
          · rw [hji]
            simp [runningOn, push_ops_apply s i i hpd hn, hstat]
          · simp [runningOn, push_ops_apply s i j hpd hn, hji]
        rw [List.filter_congr hcongr]
        by_cases hh : h = (s.ops i).object
        · rw [if_pos hh]
          show (s.objs (s.ops i).object).num_active_operations = _
          rw [hh]
          exact hc.count_eq (s.ops i).object
        · rw [if_neg hh]
          exact hc.count_eq h
      · intro h j hj
        rw [push_objs_apply s i h hpd hn] at hj
        rw [push_live s i hpd hn, push_ops_apply s i j hpd hn]
        by_cases hh : h = (s.ops i).object
        · rw [if_pos hh] at hj
          simp only [List.mem_append, List.mem_singleton] at hj
          rcases hj with hj | rfl
          · have hji : j ≠ i := fun e => hnq (s.ops i).object (e ▸ hj)
            rw [if_neg hji]
            have := hc.queue_mem (s.ops i).object j hj
            rw [hh]
            exact this
          · rw [if_pos rfl, hh]
            exact ⟨hlive, rfl, rfl⟩
        · rw [if_neg hh] at hj
          have hji : j ≠ i := fun e => hnq h (e ▸ hj)
          rw [if_neg hji]
          exact hc.queue_mem h j hj
      · intro h
        rw [push_objs_apply s i h hpd hn]
        by_cases hh : h = (s.ops i).object
        · rw [if_pos hh]
          show ((s.objs (s.ops i).object).pending_operations ++ [i]).Nodup
          rw [List.nodup_append]
          exact ⟨hc.queue_nodup (s.ops i).object, List.nodup_singleton i,
            by simpa using fun hq => hnq (s.ops i).object hq⟩
        · rw [if_neg hh]
          exact hc.queue_nodup h
      · intro j hj
        rw [push_ops_apply s i j hpd hn] at hj ⊢
        by_cases hji : j = i
        · rw [if_pos hji]
          simpa using hpd
        · simp only [if_neg hji] at hj ⊢
          exact hc.started_no_deps j hj
      · intro j p hpm
        rw [push_ops_apply s i j hpd hn] at hpm
        rw [push_live s i hpd hn, push_ops_apply s i p hpd hn]
        have hdl : p ∈ (s.ops j).pending_dependencies := by
          by_cases hji : j = i
          · rw [if_pos hji] at hpm
            rw [hji]
            simpa using hpm
          · rwa [if_neg hji] at hpm
        obtain ⟨hpl, hpb⟩ := hc.deps_live j p hdl
        refine ⟨hpl, ?_⟩
        by_cases hpi : p = i
        · rw [if_pos hpi]
          rw [hpi] at hpb
          simpa using hpb
        · simp only [if_neg hpi]
          exact hpb
      · intro j
        rw [push_ops_apply s i j hpd hn]
        by_cases hji : j = i
        · rw [if_pos hji]
          simpa using hc.deps_nodup i
        · rw [if_neg hji]
          exact hc.deps_nodup j
      · intro p b hpb
        rw [push_ops_apply s i p hpd hn] at hpb ⊢
        by_cases hpi : p = i
        · rw [if_pos hpi] at hpb ⊢
          simp only at hpb ⊢
          exact hc.probe_no_deps i b hpb
        · simp only [if_neg hpi] at hpb ⊢
          exact hc.probe_no_deps p b hpb
  · rw [try_of_pending s i hpd]
    exact hc

theorem probe_try {s : ManagerState} {i : Nat} (hpr : ProbeInv s) :
    ProbeInv (gum_v8_object_operation_try_schedule_when_idle s i) := by
  by_cases hpd : (s.ops i).pending_dependencies = []
  · by_cases hn : (s.objs (s.ops i).object).num_active_operations = 0
    · rw [try_of_idle s i hpd hn]
      exact probe_schedule hpr
    · intro p hpl b hpb
      rw [push_live s i hpd hn] at hpl
      rw [push_ops_apply s i p hpd hn] at hpb
      rw [push_ops_apply s i b hpd hn]
      have hb : (s.ops p).blocked_operation = some b := by
        by_cases hpi : p = i
        · rw [if_pos hpi] at hpb
          rw [hpi]
          simpa using hpb
        · rwa [if_neg hpi] at hpb
      have hin := hpr p hpl b hb
      by_cases hbi : b = i
      · rw [if_pos hbi]
        rw [hbi] at hin
        simpa using hin
      · simp only [if_neg hbi]
        exact hin
  · rw [try_of_pending s i hpd]
    exact hpr

theorem pin_try {s : ManagerState} {i : Nat} (hp : PinInv s) :
    PinInv (gum_v8_object_operation_try_schedule_when_idle s i) := by
  by_cases hpd : (s.ops i).pending_dependencies = []
  · by_cases hn : (s.objs (s.ops i).object).num_active_operations = 0
    · rw [try_of_idle s i hpd hn]
      exact pin_schedule hp
    · rw [try_of_busy s i hpd hn]
      exact hp
  · rw [try_of_pending s i hpd]
    exact hp

theorem upd_upd {α : Type} (f : Nat → α) (i : Nat) (v w : α) :
    upd (upd f i v) i w = upd f i w := by
  funext j
  by_cases h : j = i <;> simp [upd, h]

/-- `gum_v8_object_operation_free` when the decremented counter stays positive
or the owner's queue is empty: nothing is popped. -/
theorem free_fst_stay (s : ManagerState) (i : Nat)
    (hcase : (s.objs (s.ops i).object).num_active_operations - 1 ≠ 0
      ∨ (s.objs (s.ops i).object).pending_operations = []) :
    (gum_v8_object_operation_free s i).1 =
      { s with
        ops := upd s.ops i { s.ops i with status := OpStatus.freed }
        live_ops := s.live_ops.erase i
        objs := upd s.objs (s.ops i).object
          { s.objs (s.ops i).object with
            num_active_operations := (s.objs (s.ops i).object).num_active_operations - 1 }
        pins := s.pins - 1 } := by
  by_cases hn : (s.objs (s.ops i).object).num_active_operations - 1 = 0
  · have hq : (s.objs (s.ops i).object).pending_operations = [] := by
      rcases hcase with hc1 | hc1
      · exact absurd hn hc1
      · exact hc1
    simp only [gum_v8_object_operation_free]
    rw [if_pos hn]
    simp [upd_same, hq]
  · simp only [gum_v8_object_operation_free]
    rw [if_neg hn]

/-- `gum_v8_object_operation_free` when the counter reaches zero and the queue
is non-empty: the head is popped and scheduled immediately. -/
theorem free_fst_pop (s : ManagerState) (i next : Nat) (rest : List Nat)
    (hn : (s.objs (s.ops i).object).num_active_operations - 1 = 0)
    (hq : (s.objs (s.ops i).object).pending_operations = next :: rest) :
    (gum_v8_object_operation_free s i).1 =
      { gum_v8_object_operation_schedule
          { s with
            ops := upd s.ops i { s.ops i with status := OpStatus.freed }
            live_ops := s.live_ops.erase i
            objs := upd s.objs (s.ops i).object
              { s.objs (s.ops i).object with
                num_active_operations := 0
                pending_operations := rest } } next with
        pins := s.pins - 1 } := by
  simp only [gum_v8_object_operation_free]
  rw [if_pos hn]
  simp [upd_same, upd_upd, hq, hn, schedule_pins]

/-- `CoreInv` does not mention the pin counter. -/
theorem core_pins {s : ManagerState} (p : Nat) (hc : CoreInv s) : CoreInv { s with pins := p } :=
  ⟨hc.live_lt, hc.live_nodup, hc.dead_freed, hc.live_not_freed, hc.owner_reg, hc.count_eq,
   hc.queue_mem, hc.queue_nodup, hc.started_no_deps, hc.deps_live, hc.deps_nodup,
   hc.probe_no_deps⟩

/-- `ProbeInv` transfers along any state change that shrinks the live set and
preserves blocked pointers and pending-dependency membership. -/
theorem probe_transfer {s t : ManagerState}
    (hlive : ∀ p, p ∈ t.live_ops → p ∈ s.live_ops)
    (hblocked : ∀ p, (t.ops p).blocked_operation = (s.ops p).blocked_operation)
    (hdeps : ∀ b, (s.ops b).pending_dependencies ⊆ (t.ops b).pending_dependencies)
    (hp : ProbeInv s) : ProbeInv t := by
  intro p hpl b hpb
  rw [hblocked p] at hpb
  exact hdeps b (hp p (hlive p hpl) b hpb)

/-- The common part of the state after `gum_v8_object_operation_free` removed
a running operation, for any remaining queue `q'` drawn from the owner's old
queue, satisfies the structural invariant. -/
theorem core_free_aux {s : ManagerState} {i : Nat} (hc : CoreInv s)
    (hlive : i ∈ s.live_ops)
    (hrun : (s.ops i).status = OpStatus.running)
    (hnd : ∀ j, i ∉ (s.ops j).pending_dependencies)
    (q' : List Nat)
    (hsub : ∀ j ∈ q', j ∈ (s.objs (s.ops i).object).pending_operations)
    (hqnd : q'.Nodup) :
    CoreInv
      { s with
        ops := upd s.ops i { s.ops i with status := OpStatus.freed }
        live_ops := s.live_ops.erase i
        objs := upd s.objs (s.ops i).object
          { s.objs (s.ops i).object with
            num_active_operations := (s.objs (s.ops i).object).num_active_operations - 1
            pending_operations := q' } } := by
  have hmem : ∀ j, j ∈ s.live_ops.erase i ↔ j ≠ i ∧ j ∈ s.live_ops := by
    intro j
    exact hc.live_nodup.mem_erase_iff
  have hops : ∀ k, upd s.ops i { s.ops i with status := OpStatus.freed } k =
      if k = i then { s.ops i with status := OpStatus.freed } else s.ops k := by
    intro k
    by_cases hk : k = i
    · rw [hk, upd_same, if_pos rfl]
    · rw [upd_ne _ _ hk, if_neg hk]
  have hobjs : ∀ h, upd s.objs (s.ops i).object
      { s.objs (s.ops i).object with
        num_active_operations := (s.objs (s.ops i).object).num_active_operations - 1
        pending_operations := q' } h =
      if h = (s.ops i).object then
        { s.objs (s.ops i).object with
          num_active_operations := (s.objs (s.ops i).object).num_active_operations - 1
          pending_operations := q' }
      else s.objs h := by
    intro h
    by_cases hh : h = (s.ops i).object
    · rw [hh, upd_same, if_pos rfl]
    · rw [upd_ne _ _ hh, if_neg hh]
  refine ⟨?_, ?_, ?_, ?_, ?_, ?_, ?_, ?_, ?_, ?_, ?_, ?_⟩
  · intro j hj
    exact hc.live_lt j ((hmem j).1 hj).2
  · exact hc.live_nodup.erase i
  · intro j hj
    show (upd s.ops i { s.ops i with status := OpStatus.freed } j).status = OpStatus.freed
    rw [hops j]
    by_cases hji : j = i
    · rw [if_pos hji]
    · rw [if_neg hji]
      refine hc.dead_freed j (fun hl => hj ((hmem j).2 ⟨hji, hl⟩))
  · intro j hj
    obtain ⟨hji, hl⟩ := (hmem j).1 hj
    show (upd s.ops i { s.ops i with status := OpStatus.freed } j).status ≠ OpStatus.freed
    rw [hops j, if_neg hji]
    exact hc.live_not_freed j hl
  · intro j hj
    obtain ⟨hji, hl⟩ := (hmem j).1 hj
    show (upd s.ops i { s.ops i with status := OpStatus.freed } j).object ∈ s.object_by_handle
    rw [hops j, if_neg hji]
    exact hc.owner_reg j hl
  · intro h
    show (upd s.objs (s.ops i).object
      { s.objs (s.ops i).object with
        num_active_operations := (s.objs (s.ops i).object).num_active_operations - 1
        pending_operations := q' } h).num_active_operations = _
    have hcongr : ∀ j ∈ s.live_ops.erase i,
        (runningOn
          { s with
            ops := upd s.ops i { s.ops i with status := OpStatus.freed }
            live_ops := s.live_ops.erase i
            objs := upd s.objs (s.ops i).object
              { s.objs (s.ops i).object with
                num_active_operations := (s.objs (s.ops i).object).num_active_operations - 1
                pending_operations := q' } } h) j = runningOn s h j := by
      intro j hj
      obtain ⟨hji, hl⟩ := (hmem j).1 hj
      simp [runningOn, upd_ne _ _ hji]
    rw [List.filter_congr hcongr, hobjs h]
    by_cases hh : h = (s.ops i).object
    · rw [if_pos hh]
      show (s.objs (s.ops i).object).num_active_operations - 1 = _
      have hpi : runningOn s h i = true := by
        simp [runningOn, hrun, hh]
      have herase := length_filter_erase hc.live_nodup hlive (runningOn s h) hpi
      have hcnt := hc.count_eq (s.ops i).object
      rw [hh] at herase
      rw [hh]
      omega
    · rw [if_neg hh]
      have hpi : runningOn s h i = false := by
        have hne : ¬ (s.ops i).object = h := fun e => hh e.symm
        simp [runningOn, hne]
      rw [filter_erase_neg (runningOn s h) hpi]
      exact hc.count_eq h
  · intro h j hj
    replace hj : j ∈ (upd s.objs (s.ops i).object
      { s.objs (s.ops i).object with
        num_active_operations := (s.objs (s.ops i).object).num_active_operations - 1
        pending_operations := q' } h).pending_operations := hj
    rw [hobjs h] at hj
    have hjq : j ∈ (s.objs h).pending_operations := by
      by_cases hh : h = (s.ops i).object
      · rw [if_pos hh] at hj
        rw [hh]
        exact hsub j hj
      · rwa [if_neg hh] at hj
    obtain ⟨hl, ho, hst⟩ := hc.queue_mem h j hjq
    have hji : j ≠ i := by
      intro e
      rw [e, hrun] at hst
      simp at hst
    refine ⟨(hmem j).2 ⟨hji, hl⟩, ?_, ?_⟩
    · show (upd s.ops i { s.ops i with status := OpStatus.freed } j).object = h
      rw [hops j, if_neg hji]
      exact ho
    · show (upd s.ops i { s.ops i with status := OpStatus.freed } j).status = OpStatus.queued
      rw [hops j, if_neg hji]
      exact hst
  · intro h
    show ((upd s.objs (s.ops i).object
      { s.objs (s.ops i).object with
        num_active_operations := (s.objs (s.ops i).object).num_active_operations - 1
        pending_operations := q' } h).pending_operations).Nodup
    rw [hobjs h]
    by_cases hh : h = (s.ops i).object
    · rw [if_pos hh]
      exact hqnd
    · rw [if_neg hh]
      exact hc.queue_nodup h
  · intro j hj
    replace hj : (upd s.ops i { s.ops i with status := OpStatus.freed } j).status ≠
      OpStatus.created := hj
    rw [hops j] at hj
    show (upd s.ops i { s.ops i with status := OpStatus.freed } j).pending_dependencies = []
    rw [hops j]
    by_cases hji : j = i
    · rw [if_pos hji]
      show (s.ops i).pending_dependencies = []
      refine hc.started_no_deps i ?_
      rw [hrun]
      simp
    · rw [if_neg hji] at hj ⊢
      exact hc.started_no_deps j hj
  · intro j p hp
    replace hp : p ∈ (upd s.ops i { s.ops i with status := OpStatus.freed } j).pending_dependencies := hp
    rw [hops j] at hp
    have hdl : p ∈ (s.ops j).pending_dependencies := by
      by_cases hji : j = i
      · rw [if_pos hji] at hp
        rw [hji]
        exact hp
      · rwa [if_neg hji] at hp
    obtain ⟨hl, hb⟩ := hc.deps_live j p hdl
    have hpi : p ≠ i := fun e => hnd j (e ▸ hdl)
    constructor
    · exact (hmem p).2 ⟨hpi, hl⟩
    · show (upd s.ops i { s.ops i with status := OpStatus.freed } p).blocked_operation = some j
      rw [hops p, if_neg hpi]
      exact hb
  · intro j
    show ((upd s.ops i { s.ops i with status := OpStatus.freed } j).pending_dependencies).Nodup
    rw [hops j]
    by_cases hji : j = i
    · rw [if_pos hji]
      exact hc.deps_nodup i
    · rw [if_neg hji]
      exact hc.deps_nodup j
  · intro p b hpb
    replace hpb : (upd s.ops i { s.ops i with status := OpStatus.freed } p).blocked_operation =
      some b := hpb
    rw [hops p] at hpb
    show (upd s.ops i { s.ops i with status := OpStatus.freed } p).pending_dependencies = []
    rw [hops p]
    by_cases hpi : p = i
    · rw [if_pos hpi] at hpb ⊢
      exact hc.probe_no_deps i b hpb
    · rw [if_neg hpi] at hpb ⊢
      exact hc.probe_no_deps p b hpb

/-- Operation completion preserves the structural invariant. -/
theorem core_free {s : ManagerState} {i : Nat} (hc : CoreInv s)
    (hlive : i ∈ s.live_ops)
    (hrun : (s.ops i).status = OpStatus.running)
    (hnd : ∀ j, i ∉ (s.ops j).pending_dependencies) :
    CoreInv (gum_v8_object_operation_free s i).1 := by
  by_cases hn : (s.objs (s.ops i).object).num_active_operations - 1 = 0
  · rcases hq : (s.objs (s.ops i).object).pending_operations with _ | ⟨next, rest⟩
    · rw [free_fst_stay s i (Or.inr hq)]
      exact core_pins _ (core_free_aux hc hlive hrun hnd _ (fun j hj => hj) (hc.queue_nodup _))
    · rw [free_fst_pop s i next rest hn hq]
      apply core_pins
      have hQ := hc.queue_mem (s.ops i).object next (by rw [hq]; exact List.mem_cons_self _ _)
      obtain ⟨hnl, hno, hnst⟩ := hQ
      have hni : next ≠ i := by
        intro e
        rw [e, hrun] at hnst
        simp at hnst
      have hXcore : CoreInv { s with
          ops := upd s.ops i { s.ops i with status := OpStatus.freed }
          live_ops := s.live_ops.erase i
          objs := upd s.objs (s.ops i).object
            { s.objs (s.ops i).object with
              num_active_operations := 0
              pending_operations := rest } } := by
        have haux := core_free_aux hc hlive hrun hnd rest
          (fun j hj => by rw [hq]; exact List.mem_cons_of_mem _ hj)
          (by
            have hnodup := hc.queue_nodup (s.ops i).object
            rw [hq] at hnodup
            exact (List.nodup_cons.1 hnodup).2)
        rw [hn] at haux
        exact haux
      refine core_schedule hXcore ?_ ?_ ?_ ?_
      · show next ∈ s.live_ops.erase i
        exact hc.live_nodup.mem_erase_iff.2 ⟨hni, hnl⟩
      · right
        show (upd s.ops i { s.ops i with status := OpStatus.freed } next).status = OpStatus.queued
        rw [upd_ne _ _ hni]
        exact hnst
      · intro h
        show next ∉ (upd s.objs (s.ops i).object
          { s.objs (s.ops i).object with
            num_active_operations := 0
            pending_operations := rest } h).pending_operations
        by_cases hh : h = (s.ops i).object
        · rw [hh, upd_same]
          show next ∉ rest
          have hnodup := hc.queue_nodup (s.ops i).object
          rw [hq] at hnodup
          exact (List.nodup_cons.1 hnodup).1
        · rw [upd_ne _ _ hh]
          intro hmem2
          exact hh (((hc.queue_mem h next hmem2).2.1).symm.trans hno)
      · show (upd s.ops i { s.ops i with status := OpStatus.freed } next).pending_dependencies = []
        rw [upd_ne _ _ hni]
        refine hc.started_no_deps next ?_
        rw [hnst]
        simp
  · rw [free_fst_stay s i (Or.inl hn)]
    exact core_pins _ (core_free_aux hc hlive hrun hnd _ (fun j hj => hj) (hc.queue_nodup _))

/-- Operation completion preserves the probe bookkeeping: freeing never
touches any pending-dependency list or blocked pointer. -/
theorem probe_free {s : ManagerState} {i : Nat} (hp : ProbeInv s) :
    ProbeInv (gum_v8_object_operation_free s i).1 := by
  have hblk : ∀ p, (upd s.ops i { s.ops i with status := OpStatus.freed } p).blocked_operation =
      (s.ops p).blocked_operation := by
    intro p
    by_cases hpi : p = i
    · rw [hpi, upd_same]
    · rw [upd_ne _ _ hpi]
  have hdep : ∀ b, (s.ops b).pending_dependencies ⊆
      (upd s.ops i { s.ops i with status := OpStatus.freed } b).pending_dependencies := by
    intro b p hpb
    by_cases hbi : b = i
    · rw [hbi, upd_same]
      rw [hbi] at hpb
      exact hpb
    · rw [upd_ne _ _ hbi]
      exact hpb
  by_cases hn : (s.objs (s.ops i).object).num_active_operations - 1 = 0
  · rcases hq : (s.objs (s.ops i).object).pending_operations with _ | ⟨next, rest⟩
    · rw [free_fst_stay s i (Or.inr hq)]
      exact probe_transfer (fun p hpl => List.mem_of_mem_erase hpl) hblk hdep hp
    · rw [free_fst_pop s i next rest hn hq]
      have hX : ProbeInv { s with
          ops := upd s.ops i { s.ops i with status := OpStatus.freed }
          live_ops := s.live_ops.erase i
          objs := upd s.objs (s.ops i).object
            { s.objs (s.ops i).object with
              num_active_operations := 0
              pending_operations := rest } } :=
        probe_transfer (fun p hpl => List.mem_of_mem_erase hpl) hblk hdep hp
      exact probe_schedule hX
  · rw [free_fst_stay s i (Or.inl hn)]
    exact probe_transfer (fun p hpl => List.mem_of_mem_erase hpl) hblk hdep hp

/-- Operation completion releases exactly the pin taken at creation. -/
theorem pin_free {s : ManagerState} {i : Nat} (hpin : PinInv s) (hlive : i ∈ s.live_ops) :
    PinInv (gum_v8_object_operation_free s i).1 := by
  have hlen : (s.live_ops.erase i).length + 1 = s.live_ops.length :=
    (List.length_erase_add_one hlive)
  unfold PinInv at hpin
  by_cases hn : (s.objs (s.ops i).object).num_active_operations - 1 = 0
  · rcases hq : (s.objs (s.ops i).object).pending_operations with _ | ⟨next, rest⟩
    · rw [free_fst_stay s i (Or.inr hq)]
      show s.pins - 1 = (s.live_ops.erase i).length + s.module_ops
      omega
    · rw [free_fst_pop s i next rest hn hq]
      show s.pins - 1 = (s.live_ops.erase i).length + s.module_ops
      omega
  · rw [free_fst_stay s i (Or.inl hn)]
    show s.pins - 1 = (s.live_ops.erase i).length + s.module_ops
    omega

theorem schedule_blocked (s : ManagerState) (i p : Nat) :
    ((gum_v8_object_operation_schedule s i).ops p).blocked_operation =
      (s.ops p).blocked_operation := by
  rw [schedule_ops_apply]
  by_cases hpi : p = i
  · rw [if_pos hpi, hpi]
  · rw [if_neg hpi]

theorem schedule_deps (s : ManagerState) (i p : Nat) :
    ((gum_v8_object_operation_schedule s i).ops p).pending_dependencies =
      (s.ops p).pending_dependencies := by
  rw [schedule_ops_apply]
  by_cases hpi : p = i
  · rw [if_pos hpi, hpi]
  · rw [if_neg hpi]

theorem try_live (s : ManagerState) (i : Nat) :
    (gum_v8_object_operation_try_schedule_when_idle s i).live_ops = s.live_ops := by
  by_cases hpd : (s.ops i).pending_dependencies = []
  · by_cases hn : (s.objs (s.ops i).object).num_active_operations = 0
    · rw [try_of_idle s i hpd hn, schedule_live]
    · rw [push_live s i hpd hn]
  · rw [try_of_pending s i hpd]

theorem try_ops_ne (s : ManagerState) (i p : Nat) (hpi : p ≠ i) :
    (gum_v8_object_operation_try_schedule_when_idle s i).ops p = s.ops p := by
  by_cases hpd : (s.ops i).pending_dependencies = []
  · by_cases hn : (s.objs (s.ops i).object).num_active_operations = 0
    · rw [try_of_idle s i hpd hn, schedule_ops_apply, if_neg hpi]
    · rw [push_ops_apply s i p hpd hn, if_neg hpi]
  · rw [try_of_pending s i hpd]

theorem try_blocked (s : ManagerState) (i p : Nat) :
    ((gum_v8_object_operation_try_schedule_when_idle s i).ops p).blocked_operation =
      (s.ops p).blocked_operation := by
  by_cases hpd : (s.ops i).pending_dependencies = []
  · by_cases hn : (s.objs (s.ops i).object).num_active_operations = 0
    · rw [try_of_idle s i hpd hn]
      exact schedule_blocked s i p
    · rw [push_ops_apply s i p hpd hn]
      by_cases hpi : p = i
      · rw [if_pos hpi, hpi]
      · rw [if_neg hpi]
  · rw [try_of_pending s i hpd]

theorem try_deps (s : ManagerState) (i p : Nat) :
    ((gum_v8_object_operation_try_schedule_when_idle s i).ops p).pending_dependencies =
      (s.ops p).pending_dependencies := by
  by_cases hpd : (s.ops i).pending_dependencies = []
  · by_cases hn : (s.objs (s.ops i).object).num_active_operations = 0
    · rw [try_of_idle s i hpd hn]
      exact schedule_deps s i p
    · rw [push_ops_apply s i p hpd hn]
      by_cases hpi : p = i
      · rw [if_pos hpi, hpi]
      · rw [if_neg hpi]
  · rw [try_of_pending s i hpd]

/-- Removing one pending dependency preserves the structural invariant. -/
theorem core_erase_dep {s : ManagerState} (b p : Nat) (hc : CoreInv s) :
    CoreInv
      { s with
        ops := upd s.ops b
          { s.ops b with
            pending_dependencies := (s.ops b).pending_dependencies.erase p } } := by
  have hops : ∀ k, upd s.ops b
      { s.ops b with pending_dependencies := (s.ops b).pending_dependencies.erase p } k =
      if k = b then
        { s.ops b with pending_dependencies := (s.ops b).pending_dependencies.erase p }
      else s.ops k := by
    intro k
    by_cases hk : k = b
    · rw [hk, upd_same, if_pos rfl]
    · rw [upd_ne _ _ hk, if_neg hk]
  refine ⟨hc.live_lt, hc.live_nodup, ?_, ?_, ?_, ?_, ?_, hc.queue_nodup, ?_, ?_, ?_, ?_⟩
  · intro j hj
    show (upd s.ops b
      { s.ops b with pending_dependencies := (s.ops b).pending_dependencies.erase p } j).status =
      OpStatus.freed
    rw [hops j]
    by_cases hjb : j = b
    · rw [if_pos hjb]
      show (s.ops b).status = OpStatus.freed
      rw [← hjb]
      exact hc.dead_freed j hj
    · rw [if_neg hjb]
      exact hc.dead_freed j hj
  · intro j hj
    show (upd s.ops b
      { s.ops b with pending_dependencies := (s.ops b).pending_dependencies.erase p } j).status ≠
      OpStatus.freed
    rw [hops j]
    by_cases hjb : j = b
    · rw [if_pos hjb]
      show (s.ops b).status ≠ OpStatus.freed
      rw [← hjb]
      exact hc.live_not_freed j hj
    · rw [if_neg hjb]
      exact hc.live_not_freed j hj
  · intro j hj
    show (upd s.ops b
      { s.ops b with pending_dependencies := (s.ops b).pending_dependencies.erase p } j).object ∈
      s.object_by_handle
    rw [hops j]
    by_cases hjb : j = b
    · rw [if_pos hjb]
      show (s.ops b).object ∈ s.object_by_handle
      rw [← hjb]
      exact hc.owner_reg j hj
    · rw [if_neg hjb]
      exact hc.owner_reg j hj
  · intro h
    show (s.objs h).num_active_operations = _
    have hcongr : ∀ j ∈ s.live_ops,
        runningOn
          { s with
            ops := upd s.ops b
              { s.ops b with
                pending_dependencies := (s.ops b).pending_dependencies.erase p } } h j =
          runningOn s h j := by
      intro j hj
      simp only [runningOn]
      by_cases hjb : j = b
      · rw [hjb]
        simp [upd_same]
      · simp [upd_ne _ _ hjb]
    rw [List.filter_congr hcongr]
    exact hc.count_eq h
  · intro h j hj
    obtain ⟨hl, ho, hst⟩ := hc.queue_mem h j hj
    refine ⟨hl, ?_, ?_⟩
    · show (upd s.ops b
        { s.ops b with pending_dependencies := (s.ops b).pending_dependencies.erase p } j).object =
        h
      rw [hops j]
      by_cases hjb : j = b
      · rw [if_pos hjb]
        show (s.ops b).object = h
        rw [← hjb]
        exact ho
      · rw [if_neg hjb]
        exact ho
    · show (upd s.ops b
        { s.ops b with pending_dependencies := (s.ops b).pending_dependencies.erase p } j).status =
        OpStatus.queued
      rw [hops j]
      by_cases hjb : j = b
      · rw [if_pos hjb]
        show (s.ops b).status = OpStatus.queued
        rw [← hjb]
        exact hst
      · rw [if_neg hjb]
        exact hst
  · intro j hj
    replace hj : (upd s.ops b
      { s.ops b with pending_dependencies := (s.ops b).pending_dependencies.erase p } j).status ≠
      OpStatus.created := hj
    rw [hops j] at hj
    show (upd s.ops b
      { s.ops b with
        pending_dependencies := (s.ops b).pending_dependencies.erase p } j).pending_dependencies =
      []
    rw [hops j]
    by_cases hjb : j = b
    · rw [if_pos hjb] at hj ⊢
      show (s.ops b).pending_dependencies.erase p = []
      have hz : (s.ops b).pending_dependencies = [] := hc.started_no_deps b (by simpa using hj)
      rw [hz]
      rfl
    · rw [if_neg hjb] at hj ⊢
      exact hc.started_no_deps j hj
  · intro j q hq
    replace hq : q ∈ (upd s.ops b
      { s.ops b with
        pending_dependencies := (s.ops b).pending_dependencies.erase p } j).pending_dependencies :=
      hq
    rw [hops j] at hq
    have hmemq : q ∈ (s.ops j).pending_dependencies := by
      by_cases hjb : j = b
      · rw [if_pos hjb] at hq
        rw [hjb]
        exact List.mem_of_mem_erase hq
      · rwa [if_neg hjb] at hq
    obtain ⟨hl, hbk⟩ := hc.deps_live j q hmemq
    refine ⟨hl, ?_⟩
    show (upd s.ops b
      { s.ops b with
        pending_dependencies := (s.ops b).pending_dependencies.erase p } q).blocked_operation =
      some j
    rw [hops q]
    by_cases hqb : q = b
    · rw [if_pos hqb]
      show (s.ops b).blocked_operation = some j
      rw [← hqb]
      exact hbk
    · rw [if_neg hqb]
      exact hbk
  · intro j
    show ((upd s.ops b
      { s.ops b with
        pending_dependencies := (s.ops b).pending_dependencies.erase p } j).pending_dependencies).Nodup
    rw [hops j]
    by_cases hjb : j = b
    · rw [if_pos hjb]
      exact (hc.deps_nodup b).erase p
    · rw [if_neg hjb]
      exact hc.deps_nodup j
  · intro q c hqc
    replace hqc : (upd s.ops b
      { s.ops b with
        pending_dependencies := (s.ops b).pending_dependencies.erase p } q).blocked_operation =
      some c := hqc
    rw [hops q] at hqc
    show (upd s.ops b
      { s.ops b with
        pending_dependencies := (s.ops b).pending_dependencies.erase p } q).pending_dependencies =
      []
    rw [hops q]
    by_cases hqb : q = b
    · rw [if_pos hqb] at hqc ⊢
      show (s.ops b).pending_dependencies.erase p = []
      have hbk : (s.ops b).blocked_operation = some c := by simpa using hqc
      rw [hc.probe_no_deps b c hbk]
      rfl
    · rw [if_neg hqb] at hqc ⊢
      exact hc.probe_no_deps q c hqc

theorem probe_except_transfer {x : Nat} {s t : ManagerState}
    (hlive : ∀ q, q ∈ t.live_ops → q ∈ s.live_ops)
    (hblocked : ∀ q, (t.ops q).blocked_operation = (s.ops q).blocked_operation)
    (hdeps : ∀ b, (s.ops b).pending_dependencies ⊆ (t.ops b).pending_dependencies)
    (hp : ProbeInvExcept x s) : ProbeInvExcept x t := by
  intro q hql hqx b hqb
  rw [hblocked q] at hqb
  exact hdeps b (hp q (hlive q hql) hqx b hqb)

theorem probe_of_except_transfer {x : Nat} {s t : ManagerState}
    (hlive : ∀ q, q ∈ t.live_ops → q ≠ x ∧ q ∈ s.live_ops)
    (hblocked : ∀ q, (t.ops q).blocked_operation = (s.ops q).blocked_operation)
    (hdeps : ∀ b, (s.ops b).pending_dependencies ⊆ (t.ops b).pending_dependencies)
    (hp : ProbeInvExcept x s) : ProbeInv t := by
  intro q hql b hqb
  obtain ⟨hqx, hqs⟩ := hlive q hql
  rw [hblocked q] at hqb
  exact hdeps b (hp q hqs hqx b hqb)

/-- After the freeing step of a firing probe the full probe bookkeeping is
restored, because the one exempted operation leaves the live set. -/
theorem probe_free_of_except {s : ManagerState} {x : Nat} (hc : CoreInv s)
    (hp : ProbeInvExcept x s) : ProbeInv (gum_v8_object_operation_free s x).1 := by
  have hblk : ∀ q, (upd s.ops x { s.ops x with status := OpStatus.freed } q).blocked_operation =
      (s.ops q).blocked_operation := by
    intro q
    by_cases hqx : q = x
    · rw [hqx, upd_same]
    · rw [upd_ne _ _ hqx]
  have hdep : ∀ b, (s.ops b).pending_dependencies ⊆
      (upd s.ops x { s.ops x with status := OpStatus.freed } b).pending_dependencies := by
    intro b q hqb
    by_cases hbx : b = x
    · rw [hbx, upd_same]
      rw [hbx] at hqb
      exact hqb
    · rw [upd_ne _ _ hbx]
      exact hqb
  have hlv : ∀ q, q ∈ s.live_ops.erase x → q ≠ x ∧ q ∈ s.live_ops := by
    intro q hq
    exact hc.live_nodup.mem_erase_iff.1 hq
  by_cases hn : (s.objs (s.ops x).object).num_active_operations - 1 = 0
  · rcases hq : (s.objs (s.ops x).object).pending_operations with _ | ⟨next, rest⟩
    · rw [free_fst_stay s x (Or.inr hq)]
      exact probe_of_except_transfer hlv hblk hdep hp
    · rw [free_fst_pop s x next rest hn hq]
      refine probe_of_except_transfer ?_ ?_ ?_ hp
      · intro q hql
        exact hlv q hql
      · intro q
        show ((gum_v8_object_operation_schedule
          { s with
            ops := upd s.ops x { s.ops x with status := OpStatus.freed }
            live_ops := s.live_ops.erase x
            objs := upd s.objs (s.ops x).object
              { s.objs (s.ops x).object with
                num_active_operations := 0
                pending_operations := rest } } next).ops q).blocked_operation =
          (s.ops q).blocked_operation
        rw [schedule_blocked]
        exact hblk q
      · intro b q hqb
        show q ∈ ((gum_v8_object_operation_schedule
          { s with
            ops := upd s.ops x { s.ops x with status := OpStatus.freed }
            live_ops := s.live_ops.erase x
            objs := upd s.objs (s.ops x).object
              { s.objs (s.ops x).object with
                num_active_operations := 0
                pending_operations := rest } } next).ops b).pending_dependencies
        rw [schedule_deps]
        exact hdep b hqb
  · rw [free_fst_stay s x (Or.inl hn)]
    exact probe_of_except_transfer hlv hblk hdep hp

/-- A firing probe (`gum_v8_try_schedule_if_idle_operation_perform` followed
by its own free) preserves the full invariant. -/
theorem inv_perform {s : ManagerState} {p b : Nat}
    (hc : CoreInv s) (hpr : ProbeInv s) (hpin : PinInv s)
    (hlive : p ∈ s.live_ops)
    (hrun : (s.ops p).status = OpStatus.running)
    (hb : (s.ops p).blocked_operation = some b) :
    CoreInv (gum_v8_try_schedule_if_idle_operation_perform s p) ∧
    ProbeInv (gum_v8_try_schedule_if_idle_operation_perform s p) ∧
    PinInv (gum_v8_try_schedule_if_idle_operation_perform s p) := by
  have hpb : p ∈ (s.ops b).pending_dependencies := hpr p hlive b hb
  have hbst : (s.ops b).status = OpStatus.created := by
    by_contra hne
    rw [hc.started_no_deps b hne] at hpb
    simp at hpb
  have hbl : b ∈ s.live_ops := by
    by_contra hnl
    have hfr := hc.dead_freed b hnl
    rw [hfr] at hbst
    simp at hbst
  have hpneb : p ≠ b := by
    intro e
    have hz := hc.probe_no_deps b b (e ▸ hb)
    rw [hz] at hpb
    simp at hpb
  have hperf : gum_v8_try_schedule_if_idle_operation_perform s p =
      (gum_v8_object_operation_free
        (gum_v8_object_operation_try_schedule_when_idle
          { s with
            ops := upd s.ops b
              { s.ops b with
                pending_dependencies := (s.ops b).pending_dependencies.erase p } } b) p).1 := by
    simp only [gum_v8_try_schedule_if_idle_operation_perform]
    rw [hb]
  rw [hperf]
  set s1 : ManagerState :=
    { s with
      ops := upd s.ops b
        { s.ops b with
          pending_dependencies := (s.ops b).pending_dependencies.erase p } } with hs1
  have hc1 : CoreInv s1 := core_erase_dep b p hc
  have hex1 : ProbeInvExcept p s1 := by
    intro q hql hqp c hqc
    have hqb : (s.ops q).blocked_operation = some c := by
      replace hqc : (upd s.ops b
        { s.ops b with
          pending_dependencies := (s.ops b).pending_dependencies.erase p } q).blocked_operation =
        some c := hqc
      by_cases hqcb : q = b
      · rw [hqcb, upd_same] at hqc
        rw [hqcb]
        exact hqc
      · rwa [upd_ne _ _ hqcb] at hqc
    have hqd := hpr q hql c hqb
    show q ∈ (upd s.ops b
      { s.ops b with
        pending_dependencies := (s.ops b).pending_dependencies.erase p } c).pending_dependencies
    by_cases hcb : c = b
    · rw [hcb, upd_same]
      show q ∈ (s.ops b).pending_dependencies.erase p
      rw [hcb] at hqd
      exact (List.mem_erase_of_ne hqp).mpr hqd
    · rw [upd_ne _ _ hcb]
      exact hqd
  have hpin1 : PinInv s1 := hpin
  have hbl1 : b ∈ s1.live_ops := hbl
  have hbst1 : (s1.ops b).status = OpStatus.created := by
    show (upd s.ops b
      { s.ops b with
        pending_dependencies := (s.ops b).pending_dependencies.erase p } b).status =
      OpStatus.created
    rw [upd_same]
    exact hbst
  have hc2 : CoreInv (gum_v8_object_operation_try_schedule_when_idle s1 b) :=
    core_try hc1 hbl1 hbst1
  have hex2 : ProbeInvExcept p (gum_v8_object_operation_try_schedule_when_idle s1 b) := by
    refine probe_except_transfer ?_ ?_ ?_ hex1
    · intro q hql
      rwa [try_live] at hql
    · intro q
      exact try_blocked s1 b q
    · intro c q hq
      rw [try_deps s1 b c]
      exact hq
  have hpin2 : PinInv (gum_v8_object_operation_try_schedule_when_idle s1 b) := pin_try hpin1
  have hpl2 : p ∈ (gum_v8_object_operation_try_schedule_when_idle s1 b).live_ops := by
    rw [try_live]
    exact hlive
  have hpst2 : ((gum_v8_object_operation_try_schedule_when_idle s1 b).ops p).status =
      OpStatus.running := by
    rw [try_ops_ne s1 b p hpneb]
    show (upd s.ops b
      { s.ops b with
        pending_dependencies := (s.ops b).pending_dependencies.erase p } p).status =
      OpStatus.running
    rw [upd_ne _ _ hpneb]
    exact hrun
  have hnd2 : ∀ j,
      p ∉ ((gum_v8_object_operation_try_schedule_when_idle s1 b).ops j).pending_dependencies := by
    intro j hmem
    rw [try_deps s1 b j] at hmem
    replace hmem : p ∈ (upd s.ops b
      { s.ops b with
        pending_dependencies := (s.ops b).pending_dependencies.erase p } j).pending_dependencies :=
      hmem
    by_cases hjb : j = b
    · rw [hjb, upd_same] at hmem
      exact (hc.deps_nodup b).not_mem_erase hmem
    · rw [upd_ne _ _ hjb] at hmem
      have hbk := (hc.deps_live j p hmem).2
      rw [hb] at hbk
      exact hjb (Option.some.inj hbk.symm)
  exact ⟨core_free hc2 hpl2 hpst2 hnd2, probe_free_of_except hc2 hex2, pin_free hpin2 hpl2⟩

/-- Allocating a probe operation against dependency `d` and prepending it to
the blocked operation's pending dependencies preserves the structural
invariant. The projection hypotheses describe the state reached inside the
dependency loop of `_gum_v8_object_operation_schedule_when_idle` right before
the probe is itself scheduled. -/
theorem core_new_prepend {s t : ManagerState} {selfId d : Nat}
    (hc : CoreInv s) (hself : selfId ∈ s.live_ops)
    (hst : (s.ops selfId).status = OpStatus.created)
    (hbl : (s.ops selfId).blocked_operation = none)
    (hd : d ∈ s.object_by_handle)
    (htops : t.ops = upd
      (upd s.ops s.next_op
        { object := d, pending_dependencies := [], blocked_operation := some selfId,
          has_cleanup := false, status := OpStatus.created })
      selfId
      { s.ops selfId with
        pending_dependencies := s.next_op :: (s.ops selfId).pending_dependencies })
    (htobjs : t.objs = s.objs)
    (htlive : t.live_ops = s.live_ops ++ [s.next_op])
    (htnext : t.next_op = s.next_op + 1)
    (htreg : t.object_by_handle = s.object_by_handle) :
    CoreInv t := by
  have hlt : selfId < s.next_op := hc.live_lt selfId hself
  have hne : selfId ≠ s.next_op := Nat.ne_of_lt hlt
  have hfreshmem : s.next_op ∉ s.live_ops := fun hmem => absurd (hc.live_lt _ hmem) (by omega)
  have hops : ∀ k, t.ops k =
      if k = selfId then
        { s.ops selfId with
          pending_dependencies := s.next_op :: (s.ops selfId).pending_dependencies }
      else if k = s.next_op then
        { object := d, pending_dependencies := [], blocked_operation := some selfId,
          has_cleanup := false, status := OpStatus.created }
      else s.ops k := by
    intro k
    rw [htops]
    by_cases hk : k = selfId
    · rw [hk, upd_same, if_pos rfl]
    · rw [upd_ne _ _ hk, if_neg hk]
      by_cases hk2 : k = s.next_op
      · rw [hk2, upd_same, if_pos rfl]
      · rw [upd_ne _ _ hk2, if_neg hk2]
  have hlivemem : ∀ j, j ∈ t.live_ops ↔ j ∈ s.live_ops ∨ j = s.next_op := by
    intro j
    rw [htlive]
    simp [List.mem_append]
  refine ⟨?_, ?_, ?_, ?_, ?_, ?_, ?_, ?_, ?_, ?_, ?_, ?_⟩
  · intro j hj
    rw [htnext]
    rcases (hlivemem j).1 hj with hjl | hje
    · have := hc.live_lt j hjl
      omega
    · omega
  · rw [htlive, List.nodup_append]
    exact ⟨hc.live_nodup, List.nodup_singleton _, by simpa using hfreshmem⟩
  · intro j hj
    rw [hlivemem j] at hj
    push_neg at hj
    obtain ⟨hjl, hjn⟩ := hj
    have hjs : j ≠ selfId := fun e => hjl (e ▸ hself)
    rw [hops j, if_neg hjs, if_neg hjn]
    exact hc.dead_freed j hjl
  · intro j hj
    rw [hlivemem j] at hj
    rw [hops j]
    by_cases hjs : j = selfId
    · rw [if_pos hjs]
      simp [hst]
    · rw [if_neg hjs]
      by_cases hjn : j = s.next_op
      · rw [if_pos hjn]
        simp
      · rw [if_neg hjn]
        rcases hj with hjl | hje
        · exact hc.live_not_freed j hjl
        · exact absurd hje hjn
  · intro j hj
    rw [hlivemem j] at hj
    rw [htreg, hops j]
    by_cases hjs : j = selfId
    · rw [if_pos hjs]
      have : ({ s.ops selfId with
        pending_dependencies := s.next_op :: (s.ops selfId).pending_dependencies }).object =
        (s.ops selfId).object := rfl
      rw [this, ← hjs]
      rcases hj with hjl | hje
      · exact hc.owner_reg j hjl
      · exact absurd hje (hjs ▸ hne)
    · rw [if_neg hjs]
      by_cases hjn : j = s.next_op
      · rw [if_pos hjn]
        exact hd
      · rw [if_neg hjn]
        rcases hj with hjl | hje
        · exact hc.owner_reg j hjl
        · exact absurd hje hjn
  · intro h
    rw [htobjs, htlive, List.filter_append]
    have hshort : ∀ j ∈ s.live_ops, runningOn t h j = runningOn s h j := by
      intro j hjl
      have hjn : j ≠ s.next_op := fun e => hfreshmem (e ▸ hjl)
      simp only [runningOn]
      rw [hops j]
      by_cases hjs : j = selfId
      · rw [if_pos hjs, hjs]
      · rw [if_neg hjs, if_neg hjn]
    rw [List.filter_congr hshort]
    have hlast : List.filter (runningOn t h) [s.next_op] = [] := by
      rw [List.filter_cons]
      have hfalse : runningOn t h s.next_op = false := by
        simp only [runningOn]
        rw [hops s.next_op, if_neg (fun e => hne e.symm), if_pos rfl]
        simp
      rw [hfalse]
      rfl
    rw [hlast, List.append_nil]
    exact hc.count_eq h
  · intro h j hj
    rw [htobjs] at hj
    obtain ⟨hl, ho, hstq⟩ := hc.queue_mem h j hj
    have hjs : j ≠ selfId := by
      intro e
      rw [e, hst] at hstq
      simp at hstq
    have hjn : j ≠ s.next_op := fun e => hfreshmem (e ▸ hl)
    refine ⟨(hlivemem j).2 (Or.inl hl), ?_, ?_⟩
    · rw [hops j, if_neg hjs, if_neg hjn]
      exact ho
    · rw [hops j, if_neg hjs, if_neg hjn]
      exact hstq
  · intro h
    rw [htobjs]
    exact hc.queue_nodup h
  · intro j hj
    rw [hops j] at hj ⊢
    by_cases hjs : j = selfId
    · rw [if_pos hjs] at hj
      exact absurd (by rw [hst] : ({ s.ops selfId with
        pending_dependencies := s.next_op :: (s.ops selfId).pending_dependencies }).status =
        OpStatus.created) hj
    · rw [if_neg hjs] at hj ⊢
      by_cases hjn : j = s.next_op
      · rw [if_pos hjn] at hj
        simp at hj
      · rw [if_neg hjn] at hj ⊢
        exact hc.started_no_deps j hj
  · intro j q hq
    rw [hops j] at hq
    by_cases hjs : j = selfId
    · rw [if_pos hjs] at hq
      replace hq : q ∈ s.next_op :: (s.ops selfId).pending_dependencies := hq
      rcases List.mem_cons.1 hq with hqe | hqold
      · have hqs : q ≠ selfId := by
          rw [hqe]
          exact fun e => hne e.symm
        refine ⟨(hlivemem q).2 (Or.inr hqe), ?_⟩
        rw [hops q, if_neg hqs, if_pos hqe, hjs]
      · obtain ⟨hql, hqb⟩ := hc.deps_live selfId q hqold
        have hqs : q ≠ selfId := by
          intro e
          rw [e, hbl] at hqb
          simp at hqb
        have hqn : q ≠ s.next_op := fun e => hfreshmem (e ▸ hql)
        refine ⟨(hlivemem q).2 (Or.inl hql), ?_⟩
        rw [hops q, if_neg hqs, if_neg hqn, hjs]
        exact hqb
    · rw [if_neg hjs] at hq
      by_cases hjn : j = s.next_op
      · rw [if_pos hjn] at hq
        simp at hq
      · rw [if_neg hjn] at hq
        obtain ⟨hql, hqb⟩ := hc.deps_live j q hq
        have hqs : q ≠ selfId := by
          intro e
          rw [e, hbl] at hqb
          simp at hqb
        have hqn : q ≠ s.next_op := fun e => hfreshmem (e ▸ hql)
        refine ⟨(hlivemem q).2 (Or.inl hql), ?_⟩
        rw [hops q, if_neg hqs, if_neg hqn]
        exact hqb
  · intro j
    rw [hops j]
    by_cases hjs : j = selfId
    · rw [if_pos hjs]
      show (s.next_op :: (s.ops selfId).pending_dependencies).Nodup
      rw [List.nodup_cons]
      refine ⟨?_, hc.deps_nodup selfId⟩
      intro hmem
      exact hfreshmem (hc.deps_live selfId s.next_op hmem).1
    · rw [if_neg hjs]
      by_cases hjn : j = s.next_op
      · rw [if_pos hjn]
        exact List.nodup_nil
      · rw [if_neg hjn]
        exact hc.deps_nodup j
  · intro q c hqc
    rw [hops q] at hqc ⊢
    by_cases hqs : q = selfId
    · rw [if_pos hqs] at hqc
      replace hqc : (s.ops selfId).blocked_operation = some c := hqc
      rw [hbl] at hqc
      simp at hqc
    · rw [if_neg hqs] at hqc ⊢
      by_cases hqn : q = s.next_op
      · rw [if_pos hqn]
      · rw [if_neg hqn] at hqc ⊢
        exact hc.probe_no_deps q c hqc

/-- The probe bookkeeping after allocating a probe and prepending it. -/
theorem probe_new_prepend {s t : ManagerState} {selfId d : Nat}
    (hc : CoreInv s) (hpr : ProbeInv s) (hself : selfId ∈ s.live_ops)
    (hbl : (s.ops selfId).blocked_operation = none)
    (htops : t.ops = upd
      (upd s.ops s.next_op
        { object := d, pending_dependencies := [], blocked_operation := some selfId,
          has_cleanup := false, status := OpStatus.created })
      selfId
      { s.ops selfId with
        pending_dependencies := s.next_op :: (s.ops selfId).pending_dependencies })
    (htlive : t.live_ops = s.live_ops ++ [s.next_op]) :
    ProbeInv t := by
  have hlt : selfId < s.next_op := hc.live_lt selfId hself
  have hne : selfId ≠ s.next_op := Nat.ne_of_lt hlt
  have hfreshmem : s.next_op ∉ s.live_ops := fun hmem => absurd (hc.live_lt _ hmem) (by omega)
  have hops : ∀ k, t.ops k =
      if k = selfId then
        { s.ops selfId with
          pending_dependencies := s.next_op :: (s.ops selfId).pending_dependencies }
      else if k = s.next_op then
        { object := d, pending_dependencies := [], blocked_operation := some selfId,
          has_cleanup := false, status := OpStatus.created }
      else s.ops k := by
    intro k
    rw [htops]
    by_cases hk : k = selfId
    · rw [hk, upd_same, if_pos rfl]
    · rw [upd_ne _ _ hk, if_neg hk]
      by_cases hk2 : k = s.next_op
      · rw [hk2, upd_same, if_pos rfl]
      · rw [upd_ne _ _ hk2, if_neg hk2]
  intro q hql c hqc
  rw [htlive] at hql
  rw [List.mem_append, List.mem_singleton] at hql
  by_cases hqn : q = s.next_op
  · have hqs : q ≠ selfId := by
      rw [hqn]
      exact fun e => hne e.symm
    rw [hops q, if_neg hqs, if_pos hqn] at hqc
    replace hqc : some selfId = some c := hqc
    have hcs : c = selfId := (Option.some.inj hqc).symm
    rw [hops c, if_pos hcs, hqn]
    exact List.mem_cons_self _ _
  · have hql2 : q ∈ s.live_ops := hql.resolve_right hqn
    by_cases hqs : q = selfId
    · rw [hops q, if_pos hqs] at hqc
      replace hqc : (s.ops selfId).blocked_operation = some c := hqc
      rw [hbl] at hqc
      simp at hqc
    · rw [hops q, if_neg hqs, if_neg hqn] at hqc
      have hqd := hpr q hql2 c hqc
      rw [hops c]
      by_cases hcs : c = selfId
      · rw [if_pos hcs]
        show q ∈ s.next_op :: (s.ops selfId).pending_dependencies
        rw [hcs] at hqd
        exact List.mem_cons_of_mem _ hqd
      · rw [if_neg hcs]
        by_cases hcn : c = s.next_op
        · rw [hcn] at hqd
          have hdz : (s.ops s.next_op).pending_dependencies = [] := by
            refine hc.started_no_deps s.next_op ?_
            rw [hc.dead_freed s.next_op hfreshmem]
            simp
          rw [hdz] at hqd
          simp at hqd
        · rw [if_neg hcn]
          exact hqd

/-- The pin accounting after allocating a probe. -/
theorem pin_new_prepend {s t : ManagerState}
    (hpin : PinInv s)
    (htlive : t.live_ops = s.live_ops ++ [s.next_op])
    (htpins : t.pins = s.pins + 1)
    (htmod : t.module_ops = s.module_ops) :
    PinInv t := by
  show t.pins = t.live_ops.length + t.module_ops
  rw [htpins, htlive, htmod, List.length_append]
  unfold PinInv at hpin
  simp
  omega

/-- One unfolding of the dependency loop. -/
theorem loop_cons (s : ManagerState) (selfId d : Nat) (rest : List Nat) :
    gum_v8_object_operation_schedule_when_idle_loop s selfId (d :: rest) =
      if 0 < (s.objs d).num_active_operations then
        gum_v8_object_operation_schedule_when_idle_loop
          (gum_v8_object_operation_try_schedule_when_idle
            { (gum_v8_object_operation_new s d (some selfId) false).1 with
              ops := upd (gum_v8_object_operation_new s d (some selfId) false).1.ops selfId
                { (gum_v8_object_operation_new s d (some selfId) false).1.ops selfId with
                  pending_dependencies :=
                    (gum_v8_object_operation_new s d (some selfId) false).2 ::
                      ((gum_v8_object_operation_new s d (some selfId) false).1.ops
                        selfId).pending_dependencies } }
            (gum_v8_object_operation_new s d (some selfId) false).2)
          selfId rest
      else gum_v8_object_operation_schedule_when_idle_loop s selfId rest := rfl

/-- A busy dependency rewrites the loop step to the clean probe state. -/
theorem loop_cons_busy (s : ManagerState) (selfId d : Nat) (rest : List Nat)
    (hne : selfId ≠ s.next_op)
    (hbusy : 0 < (s.objs d).num_active_operations) :
    gum_v8_object_operation_schedule_when_idle_loop s selfId (d :: rest) =
      gum_v8_object_operation_schedule_when_idle_loop
        (gum_v8_object_operation_try_schedule_when_idle
          { s with
            ops := upd
              (upd s.ops s.next_op
                { object := d, pending_dependencies := [], blocked_operation := some selfId,
                  has_cleanup := false, status := OpStatus.created })
              selfId
              { s.ops selfId with
                pending_dependencies := s.next_op :: (s.ops selfId).pending_dependencies }
            live_ops := s.live_ops ++ [s.next_op]
            next_op := s.next_op + 1
            pins := s.pins + 1 }
          s.next_op)
        selfId rest := by
  rw [loop_cons, if_pos hbusy]
  have hinner : (gum_v8_object_operation_new s d (some selfId) false).1.ops selfId =
      s.ops selfId := upd_ne _ _ hne
  rw [hinner]
  rfl

/-- An idle dependency is skipped by the loop. -/
theorem loop_cons_idle (s : ManagerState) (selfId d : Nat) (rest : List Nat)
    (hidle : ¬ 0 < (s.objs d).num_active_operations) :
    gum_v8_object_operation_schedule_when_idle_loop s selfId (d :: rest) =
      gum_v8_object_operation_schedule_when_idle_loop s selfId rest := by
  rw [loop_cons, if_neg hidle]

/-- Scheduling the freshly created probe when idle: with the dependency busy,
the probe lands at the tail of the dependency's queue in the queued state,
and the invariant carries over. The state `s2` abstracts the probe-allocation
state of `loop_cons_busy`. -/
theorem swi_chunk_try {s s2 : ManagerState} {selfId d : Nat}
    (hc2 : CoreInv s2) (hpr2 : ProbeInv s2) (hpin2 : PinInv s2)
    (hops2 : s2.ops = upd
      (upd s.ops s.next_op
        { object := d, pending_dependencies := [], blocked_operation := some selfId,
          has_cleanup := false, status := OpStatus.created })
      selfId
      { s.ops selfId with
        pending_dependencies := s.next_op :: (s.ops selfId).pending_dependencies })
    (hobjs2 : s2.objs = s.objs)
    (hlive2 : s2.live_ops = s.live_ops ++ [s.next_op])
    (hnext2 : s2.next_op = s.next_op + 1)
    (hreg2 : s2.object_by_handle = s.object_by_handle)
    (hne : selfId ≠ s.next_op)
    (hbusy : 0 < (s.objs d).num_active_operations) :
    CoreInv (gum_v8_object_operation_try_schedule_when_idle s2 s.next_op) ∧
    ProbeInv (gum_v8_object_operation_try_schedule_when_idle s2 s.next_op) ∧
    PinInv (gum_v8_object_operation_try_schedule_when_idle s2 s.next_op) ∧
    (∀ k, (gum_v8_object_operation_try_schedule_when_idle s2 s.next_op).ops k =
      if k = s.next_op then
        { object := d, pending_dependencies := [], blocked_operation := some selfId,
          has_cleanup := false, status := OpStatus.queued }
      else if k = selfId then
        { s.ops selfId with
          pending_dependencies := s.next_op :: (s.ops selfId).pending_dependencies }
      else s.ops k) ∧
    (∀ h, (gum_v8_object_operation_try_schedule_when_idle s2 s.next_op).objs h =
      if h = d then
        { s.objs d with
          pending_operations := (s.objs d).pending_operations ++ [s.next_op] }
      else s.objs h) ∧
    (gum_v8_object_operation_try_schedule_when_idle s2 s.next_op).live_ops =
      s.live_ops ++ [s.next_op] ∧
    (gum_v8_object_operation_try_schedule_when_idle s2 s.next_op).next_op = s.next_op + 1 ∧
    (gum_v8_object_operation_try_schedule_when_idle s2 s.next_op).object_by_handle =
      s.object_by_handle := by
  have hdeps2 : (s2.ops s.next_op).pending_dependencies = [] := by
    rw [hops2, upd_ne _ _ (fun e => hne e.symm), upd_same]
  have hobj2 : (s2.ops s.next_op).object = d := by
    rw [hops2, upd_ne _ _ (fun e => hne e.symm), upd_same]
  have hcnt2 : (s2.objs (s2.ops s.next_op).object).num_active_operations ≠ 0 := by
    rw [hobj2, hobjs2]
    omega
  have hstat2 : (s2.ops s.next_op).status = OpStatus.created := by
    rw [hops2, upd_ne _ _ (fun e => hne e.symm), upd_same]
  have hlive2mem : s.next_op ∈ s2.live_ops := by
    rw [hlive2]
    simp
  refine ⟨core_try hc2 hlive2mem hstat2, probe_try hpr2, pin_try hpin2, ?_, ?_, ?_, ?_, ?_⟩
  · intro k
    rw [push_ops_apply s2 s.next_op k hdeps2 hcnt2]
    by_cases hk : k = s.next_op
    · rw [if_pos hk, if_pos hk, hops2, upd_ne _ _ (fun e => hne e.symm), upd_same]
    · rw [if_neg hk, if_neg hk, hops2]
      by_cases hks : k = selfId
      · rw [hks, upd_same, if_pos rfl]
      · rw [upd_ne _ _ hks, if_neg hks, upd_ne _ _ hk]
  · intro h
    rw [push_objs_apply s2 s.next_op h hdeps2 hcnt2, hobj2, hobjs2]
  · rw [push_live s2 s.next_op hdeps2 hcnt2, hlive2]
  · rw [push_next s2 s.next_op hdeps2 hcnt2, hnext2]
  · rw [push_reg s2 s.next_op hdeps2 hcnt2, hreg2]

/-- The dependency loop of `_gum_v8_object_operation_schedule_when_idle`:
it creates exactly one probe per busy dependency (each queued on its
dependency's queue and prepended to `selfId`'s pending dependencies), touches
no counter, pushes only freshly allocated ids onto queues, leaves every
previously allocated operation other than `selfId` unchanged, and preserves
the invariant. -/
theorem swi_loop (deps : List Nat) :
    ∀ s selfId, CoreInv s → ProbeInv s → PinInv s →
    selfId ∈ s.live_ops →
    (s.ops selfId).status = OpStatus.created →
    (s.ops selfId).blocked_operation = none →
    (∀ x ∈ deps, x ∈ s.object_by_handle) →
    ∃ t, gum_v8_object_operation_schedule_when_idle_loop s selfId deps = t ∧
      CoreInv t ∧ ProbeInv t ∧ PinInv t ∧
      t.object_by_handle = s.object_by_handle ∧
      (∀ h, (t.objs h).num_active_operations = (s.objs h).num_active_operations) ∧
      (∀ h, ∃ push : List Nat,
        (t.objs h).pending_operations = (s.objs h).pending_operations ++ push ∧
        ∀ y ∈ push, s.next_op ≤ y) ∧
      s.next_op ≤ t.next_op ∧
      (∃ fresh : List Nat, t.live_ops = s.live_ops ++ fresh ∧ ∀ y ∈ fresh, s.next_op ≤ y) ∧
      (∀ j, j < s.next_op → j ≠ selfId → t.ops j = s.ops j) ∧
      ∃ probes : List Nat,
        t.ops selfId = { s.ops selfId with
          pending_dependencies := probes.reverse ++ (s.ops selfId).pending_dependencies } ∧
        probes.map (fun q => (t.ops q).object) = busyDeps s deps ∧
        ∀ q ∈ probes, (t.ops q).blocked_operation = some selfId ∧
          (t.ops q).pending_dependencies = [] ∧
          (t.ops q).status = OpStatus.queued ∧ s.next_op ≤ q := by
  induction deps with
  | nil =>
    intro s selfId hc hpr hpin hself hst hbl hreg
    refine ⟨s, rfl, hc, hpr, hpin, rfl, fun h => rfl, ?_, Nat.le_refl _,
      ⟨[], by simp, by simp⟩, fun j h1 h2 => rfl, ⟨[], rfl, rfl, ?_⟩⟩
    · intro h
      exact ⟨[], by simp, by simp⟩
    · intro q hq
      simp at hq
  | cons d rest ih =>
    intro s selfId hc hpr hpin hself hst hbl hreg
    have hne : selfId ≠ s.next_op := Nat.ne_of_lt (hc.live_lt selfId hself)
    by_cases hbusy : 0 < (s.objs d).num_active_operations
    · have hd : d ∈ s.object_by_handle := hreg d (List.mem_cons_self _ _)
      have hc2 := @core_new_prepend s
        { s with
          ops := upd
            (upd s.ops s.next_op
              { object := d, pending_dependencies := [], blocked_operation := some selfId,
                has_cleanup := false, status := OpStatus.created })
            selfId
            { s.ops selfId with
              pending_dependencies := s.next_op :: (s.ops selfId).pending_dependencies }
          live_ops := s.live_ops ++ [s.next_op]
          next_op := s.next_op + 1
          pins := s.pins + 1 }
        selfId d hc hself hst hbl hd rfl rfl rfl rfl rfl
      have hpr2 := @probe_new_prepend s
        { s with
          ops := upd
            (upd s.ops s.next_op
              { object := d, pending_dependencies := [], blocked_operation := some selfId,
                has_cleanup := false, status := OpStatus.created })
            selfId
            { s.ops selfId with
              pending_dependencies := s.next_op :: (s.ops selfId).pending_dependencies }
          live_ops := s.live_ops ++ [s.next_op]
          next_op := s.next_op + 1
          pins := s.pins + 1 }
        selfId d hc hpr hself hbl rfl rfl
      have hpin2 := @pin_new_prepend s
        { s with
          ops := upd
            (upd s.ops s.next_op
              { object := d, pending_dependencies := [], blocked_operation := some selfId,
                has_cleanup := false, status := OpStatus.created })
            selfId
            { s.ops selfId with
              pending_dependencies := s.next_op :: (s.ops selfId).pending_dependencies }
          live_ops := s.live_ops ++ [s.next_op]
          next_op := s.next_op + 1
          pins := s.pins + 1 }
        hpin rfl rfl rfl
      obtain ⟨hc3, hpr3, hpin3, hops3, hobjs3, hlive3, hnext3, hreg3⟩ :=
        @swi_chunk_try s
          { s with
            ops := upd
              (upd s.ops s.next_op
                { object := d, pending_dependencies := [], blocked_operation := some selfId,
                  has_cleanup := false, status := OpStatus.created })
              selfId
              { s.ops selfId with
                pending_dependencies := s.next_op :: (s.ops selfId).pending_dependencies }
            live_ops := s.live_ops ++ [s.next_op]
            next_op := s.next_op + 1
            pins := s.pins + 1 }
          selfId d hc2 hpr2 hpin2 rfl rfl rfl rfl rfl hne hbusy
      have hself3 : selfId ∈ s.live_ops ++ [s.next_op] := List.mem_append_left _ hself
      rw [← hlive3] at hself3
      have hst3 := congrArg AnyOperation.status (hops3 selfId)
      rw [if_neg hne, if_pos rfl] at hst3
      replace hst3 := hst3.trans hst
      have hbl3 := congrArg AnyOperation.blocked_operation (hops3 selfId)
      rw [if_neg hne, if_pos rfl] at hbl3
      replace hbl3 := hbl3.trans hbl
      have hreg3' : ∀ x ∈ rest, x ∈ s.object_by_handle :=
        fun x hx => hreg x (List.mem_cons_of_mem _ hx)
      rw [← hreg3] at hreg3'
      obtain ⟨t, htEq, htc, htp, htpin, htreg, htcount, htqueue, htnext, htfresh, htold,
        probes3, htself, htmap, htprobes⟩ :=
        ih _ selfId hc3 hpr3 hpin3 hself3 hst3 hbl3 hreg3'
      have hcnteq3 : ∀ x, ((gum_v8_object_operation_try_schedule_when_idle
          { s with
            ops := upd
              (upd s.ops s.next_op
                { object := d, pending_dependencies := [], blocked_operation := some selfId,
                  has_cleanup := false, status := OpStatus.created })
              selfId
              { s.ops selfId with
                pending_dependencies := s.next_op :: (s.ops selfId).pending_dependencies }
            live_ops := s.live_ops ++ [s.next_op]
            next_op := s.next_op + 1
            pins := s.pins + 1 }
          s.next_op).objs x).num_active_operations = (s.objs x).num_active_operations := by
        intro x
        rw [hobjs3 x]
        by_cases hx : x = d
        · rw [if_pos hx, hx]
        · rw [if_neg hx]
      refine ⟨t, ?_, htc, htp, htpin, ?_, ?_, ?_, ?_, ?_, ?_, ?_⟩
      · rw [loop_cons_busy s selfId d rest hne hbusy]
        exact htEq
      · rw [htreg, hreg3]
      · intro h
        rw [htcount h, hcnteq3 h]
      · intro h
        obtain ⟨push3, hpq, hpy⟩ := htqueue h
        rw [hobjs3 h] at hpq
        by_cases hh : h = d
        · rw [if_pos hh] at hpq
          rw [hh] at hpq ⊢
          refine ⟨[s.next_op] ++ push3, ?_, ?_⟩
          · rw [hpq]
            exact (List.append_assoc _ _ _)
          · intro y hy
            rcases List.mem_append.1 hy with hy1 | hy2
            · rw [List.mem_singleton] at hy1
              omega
            · have := hpy y hy2
              rw [hnext3] at this
              omega
        · rw [if_neg hh] at hpq
          refine ⟨push3, hpq, ?_⟩
          intro y hy
          have := hpy y hy
          rw [hnext3] at this
          omega
      · rw [hnext3] at htnext
        omega
      · obtain ⟨fresh3, hfl, hfy⟩ := htfresh
        rw [hlive3] at hfl
        refine ⟨[s.next_op] ++ fresh3, ?_, ?_⟩
        · rw [hfl]
          exact (List.append_assoc _ _ _)
        · intro y hy
          rcases List.mem_append.1 hy with hy1 | hy2
          · rw [List.mem_singleton] at hy1
            omega
          · have := hfy y hy2
            rw [hnext3] at this
            omega
      · intro j hj1 hj2
        have hjn : j ≠ s.next_op := by omega
        rw [htold j (by rw [hnext3]; omega) hj2, hops3 j, if_neg hjn, if_neg hj2]
      · refine ⟨s.next_op :: probes3, ?_, ?_, ?_⟩
        · rw [htself, hops3 selfId, if_neg hne, if_pos rfl]
          simp [List.reverse_cons, List.append_assoc]
        · have hbzd : busyDeps s (d :: rest) = d :: busyDeps s rest := by
            simp [busyDeps, List.filter_cons, hbusy]
          rw [hbzd, List.map_cons]
          have hmapfst : (t.ops s.next_op).object = d := by
            rw [htold s.next_op (by rw [hnext3]; omega) (fun e => hne e.symm),
              hops3 s.next_op, if_pos rfl]
          have hbb : busyDeps (gum_v8_object_operation_try_schedule_when_idle
              { s with
                ops := upd
                  (upd s.ops s.next_op
                    { object := d, pending_dependencies := [], blocked_operation := some selfId,
                      has_cleanup := false, status := OpStatus.created })
                  selfId
                  { s.ops selfId with
                    pending_dependencies := s.next_op :: (s.ops selfId).pending_dependencies }
                live_ops := s.live_ops ++ [s.next_op]
                next_op := s.next_op + 1
                pins := s.pins + 1 }
              s.next_op) rest = busyDeps s rest :=
            List.filter_congr (fun x hx => by rw [hcnteq3 x])
          rw [hmapfst, htmap, hbb]
        · intro q hq
          rcases List.mem_cons.1 hq with hqe | hq3
          · have hqops : t.ops q =
                { object := d, pending_dependencies := [], blocked_operation := some selfId,
                  has_cleanup := false, status := OpStatus.queued } := by
              rw [hqe, htold s.next_op (by rw [hnext3]; omega) (fun e => hne e.symm),
                hops3 s.next_op, if_pos rfl]
            rw [hqops, hqe]
            exact ⟨rfl, rfl, rfl, Nat.le_refl _⟩
          · obtain ⟨hb1, hb2, hb3, hb4⟩ := htprobes q hq3
            rw [hnext3] at hb4
            exact ⟨hb1, hb2, hb3, by omega⟩
    · have hreg' : ∀ x ∈ rest, x ∈ s.object_by_handle :=
        fun x hx => hreg x (List.mem_cons_of_mem _ hx)
      obtain ⟨t, htEq, htc, htp, htpin, htreg, htcount, htqueue, htnext, htfresh, htold,
        probes, htself, htmap, htprobes⟩ :=
        ih s selfId hc hpr hpin hself hst hbl hreg'
      refine ⟨t, ?_, htc, htp, htpin, htreg, htcount, htqueue, htnext, htfresh, htold,
        probes, htself, ?_, htprobes⟩
      · rw [loop_cons_idle s selfId d rest hbusy]
        exact htEq
      · have hbzd : busyDeps s (d :: rest) = busyDeps s rest := by
          simp [busyDeps, List.filter_cons, hbusy]
        rw [hbzd]
        exact htmap

/-- A handle absent from the registry has an empty queue. -/
theorem queue_empty_of_unreg {s : ManagerState} (hc : CoreInv s) {h : Nat}
    (hh : h ∉ s.object_by_handle) : (s.objs h).pending_operations = [] := by
  rcases hq : (s.objs h).pending_operations with _ | ⟨j, rest⟩
  · rfl
  · exfalso
    have hmem := hc.queue_mem h j (by rw [hq]; exact List.mem_cons_self _ _)
    exact hh (hmem.2.1 ▸ hc.owner_reg j hmem.1)

/-- A handle absent from the registry has a zero counter. -/
theorem count_zero_of_unreg {s : ManagerState} (hc : CoreInv s) {h : Nat}
    (hh : h ∉ s.object_by_handle) : (s.objs h).num_active_operations = 0 := by
  rw [hc.count_eq h]
  have hnil : s.live_ops.filter (runningOn s h) = [] := by
    rw [List.filter_eq_nil_iff]
    intro a ha
    simp only [runningOn, decide_eq_true_eq]
    intro hcon
    exact hh (hcon.1 ▸ hc.owner_reg a ha)
  rw [hnil]
  rfl

/-- When no live operation is owned by a handle, its counter is zero and its
queue is empty — the precondition for `gum_v8_object_free`'s assertions. -/
theorem object_idle_of_no_live {s : ManagerState} (hc : CoreInv s) {h : Nat}
    (hno : ∀ i ∈ s.live_ops, (s.ops i).object ≠ h) :
    (s.objs h).num_active_operations = 0 ∧ (s.objs h).pending_operations = [] := by
  constructor
  · rw [hc.count_eq h]
    have hnil : s.live_ops.filter (runningOn s h) = [] := by
      rw [List.filter_eq_nil_iff]
      intro a ha
      simp only [runningOn, decide_eq_true_eq]
      intro hcon
      exact hno a ha hcon.1
    rw [hnil]
    rfl
  · rcases hq : (s.objs h).pending_operations with _ | ⟨j, rest⟩
    · rfl
    · exfalso
      have hmem := hc.queue_mem h j (by rw [hq]; exact List.mem_cons_self _ _)
      exact hno j hmem.1 hmem.2.1

/-- Allocating a plain (non-probe) operation preserves the structural
invariant. -/
theorem core_new_none {s : ManagerState} {owner : Nat} {hcl : Bool}
    (hc : CoreInv s) (howner : owner ∈ s.object_by_handle) :
    CoreInv (gum_v8_object_operation_new s owner none hcl).1 := by
  have hfreshmem : s.next_op ∉ s.live_ops := fun hmem => absurd (hc.live_lt _ hmem) (by omega)
  have hops : ∀ k, (gum_v8_object_operation_new s owner none hcl).1.ops k =
      if k = s.next_op then
        { object := owner, pending_dependencies := [], blocked_operation := none,
          has_cleanup := hcl, status := OpStatus.created }
      else s.ops k := fun k => new_ops_apply s owner k none hcl
  have hlivemem : ∀ j, j ∈ (gum_v8_object_operation_new s owner none hcl).1.live_ops ↔
      j ∈ s.live_ops ∨ j = s.next_op := by
    intro j
    rw [new_live]
    simp [List.mem_append]
  refine ⟨?_, ?_, ?_, ?_, ?_, ?_, ?_, ?_, ?_, ?_, ?_, ?_⟩
  · intro j hj
    rw [new_next]
    rcases (hlivemem j).1 hj with hjl | hje
    · have := hc.live_lt j hjl
      omega
    · omega
  · rw [new_live, List.nodup_append]
    exact ⟨hc.live_nodup, List.nodup_singleton _, by simpa using hfreshmem⟩
  · intro j hj
    rw [hlivemem j] at hj
    push_neg at hj
    rw [hops j, if_neg hj.2]
    exact hc.dead_freed j hj.1
  · intro j hj
    rw [hlivemem j] at hj
    rw [hops j]
    by_cases hjn : j = s.next_op
    · rw [if_pos hjn]
      simp
    · rw [if_neg hjn]
      exact hc.live_not_freed j (hj.resolve_right hjn)
  · intro j hj
    rw [hlivemem j] at hj
    rw [new_reg, hops j]
    by_cases hjn : j = s.next_op
    · rw [if_pos hjn]
      exact howner
    · rw [if_neg hjn]
      exact hc.owner_reg j (hj.resolve_right hjn)
  · intro h
    rw [new_objs, new_live, List.filter_append]
    have hshort : ∀ j ∈ s.live_ops,
        runningOn (gum_v8_object_operation_new s owner none hcl).1 h j = runningOn s h j := by
      intro j hjl
      have hjn : j ≠ s.next_op := fun e => hfreshmem (e ▸ hjl)
      simp only [runningOn]
      rw [hops j, if_neg hjn]
    rw [List.filter_congr hshort]
    have hlast : List.filter (runningOn (gum_v8_object_operation_new s owner none hcl).1 h)
        [s.next_op] = [] := by
      rw [List.filter_cons]
      have hfalse : runningOn (gum_v8_object_operation_new s owner none hcl).1 h s.next_op =
          false := by
        simp only [runningOn]
        rw [hops s.next_op, if_pos rfl]
        simp
      rw [hfalse]
      rfl
    rw [hlast, List.append_nil]
    exact hc.count_eq h
  · intro h j hj
    rw [new_objs] at hj
    obtain ⟨hl, ho, hstq⟩ := hc.queue_mem h j hj
    have hjn : j ≠ s.next_op := fun e => hfreshmem (e ▸ hl)
    refine ⟨(hlivemem j).2 (Or.inl hl), ?_, ?_⟩
    · rw [hops j, if_neg hjn]
      exact ho
    · rw [hops j, if_neg hjn]
      exact hstq
  · intro h
    rw [new_objs]
    exact hc.queue_nodup h
  · intro j hj
    rw [hops j] at hj ⊢
    by_cases hjn : j = s.next_op
    · rw [if_pos hjn]
    · rw [if_neg hjn] at hj ⊢
      exact hc.started_no_deps j hj
  · intro j q hq
    rw [hops j] at hq
    by_cases hjn : j = s.next_op
    · rw [if_pos hjn] at hq
      simp at hq
    · rw [if_neg hjn] at hq
      obtain ⟨hql, hqb⟩ := hc.deps_live j q hq
      have hqn : q ≠ s.next_op := fun e => hfreshmem (e ▸ hql)
      refine ⟨(hlivemem q).2 (Or.inl hql), ?_⟩
      rw [hops q, if_neg hqn]
      exact hqb
  · intro j
    rw [hops j]
    by_cases hjn : j = s.next_op
    · rw [if_pos hjn]
      exact List.nodup_nil
    · rw [if_neg hjn]
      exact hc.deps_nodup j
  · intro q c hqc
    rw [hops q] at hqc ⊢
    by_cases hqn : q = s.next_op
    · rw [if_pos hqn] at hqc
      simp at hqc
    · rw [if_neg hqn] at hqc ⊢
      exact hc.probe_no_deps q c hqc

/-- Allocating a plain operation preserves the probe bookkeeping. -/
theorem probe_new_none {s : ManagerState} {owner : Nat} {hcl : Bool}
    (hc : CoreInv s) (hpr : ProbeInv s) :
    ProbeInv (gum_v8_object_operation_new s owner none hcl).1 := by
  have hfreshmem : s.next_op ∉ s.live_ops := fun hmem => absurd (hc.live_lt _ hmem) (by omega)
  intro q hql c hqc
  rw [new_live, List.mem_append, List.mem_singleton] at hql
  by_cases hqn : q = s.next_op
  · rw [new_ops_apply, if_pos hqn] at hqc
    simp at hqc
  · have hql2 : q ∈ s.live_ops := hql.resolve_right hqn
    rw [new_ops_apply, if_neg hqn] at hqc
    have hqd := hpr q hql2 c hqc
    rw [new_ops_apply]
    by_cases hcn : c = s.next_op
    · rw [hcn] at hqd
      have hdz : (s.ops s.next_op).pending_dependencies = [] := by
        refine hc.started_no_deps s.next_op ?_
        rw [hc.dead_freed s.next_op hfreshmem]
        simp
      rw [hdz] at hqd
      simp at hqd
    · rw [if_neg hcn]
      exact hqd

/-- Allocating a plain operation takes exactly one pin. -/
theorem pin_new_none {s : ManagerState} {owner : Nat} {blocked : Option Nat} {hcl : Bool}
    (hpin : PinInv s) : PinInv (gum_v8_object_operation_new s owner blocked hcl).1 := by
  show (gum_v8_object_operation_new s owner blocked hcl).1.pins = _
  rw [new_live]
  show s.pins + 1 = (s.live_ops ++ [s.next_op]).length + s.module_ops
  rw [List.length_append]
  unfold PinInv at hpin
  simp
  omega

/-- The full effect of the `newOperation` event — creating an operation with
`_gum_v8_object_operation_new` and scheduling it via
`_gum_v8_object_operation_schedule_when_idle`: the step succeeds, the
invariant is preserved, every queue grows only at the tail and only by
freshly allocated ids, and the new operation's pending dependencies consist
of exactly one freshly allocated queued probe per busy dependency, in
reverse creation order. -/
theorem newOperation_facts {s : ManagerState} {owner : Nat} {deps : List Nat} {hcl : Bool}
    (hc : CoreInv s) (hpr : ProbeInv s) (hpin : PinInv s)
    (howner : owner ∈ s.object_by_handle)
    (hdeps : ∀ x ∈ deps, x ∈ s.object_by_handle) :
    ∃ s', step s (Event.newOperation owner deps hcl) = some s' ∧
      CoreInv s' ∧ ProbeInv s' ∧ PinInv s' ∧
      (∀ h, ∃ push : List Nat,
        (s'.objs h).pending_operations = (s.objs h).pending_operations ++ push ∧
        ∀ y ∈ push, s.next_op ≤ y) ∧
      ∃ probes : List Nat,
        (s'.ops s.next_op).pending_dependencies = probes.reverse ∧
        probes.map (fun q => (s'.ops q).object) = busyDeps s deps ∧
        ∀ q ∈ probes, (s'.ops q).blocked_operation = some s.next_op ∧
          (s'.ops q).pending_dependencies = [] ∧
          (s'.ops q).status = OpStatus.queued ∧ s.next_op < q := by
  have hA : CoreInv (gum_v8_object_operation_new s owner none hcl).1 := core_new_none hc howner
  have hAp : ProbeInv (gum_v8_object_operation_new s owner none hcl).1 := probe_new_none hc hpr
  have hApin : PinInv (gum_v8_object_operation_new s owner none hcl).1 :=
    @pin_new_none s owner none hcl hpin
  have hselfA : s.next_op ∈ (gum_v8_object_operation_new s owner none hcl).1.live_ops := by
    rw [new_live]
    simp
  have hstA : ((gum_v8_object_operation_new s owner none hcl).1.ops s.next_op).status =
      OpStatus.created := by
    rw [new_ops_apply, if_pos rfl]
  have hblA : ((gum_v8_object_operation_new s owner none hcl).1.ops
      s.next_op).blocked_operation = none := by
    rw [new_ops_apply, if_pos rfl]
  have hdepsA : ∀ x ∈ deps, x ∈ (gum_v8_object_operation_new s owner none hcl).1.object_by_handle := by
    rw [new_reg]
    exact hdeps
  obtain ⟨t, htEq, htc, htp, htpin, htreg, htcount, htqueue, htnext, htfresh, htold,
    probes, htself, htmap, htprobes⟩ :=
    swi_loop deps (gum_v8_object_operation_new s owner none hcl).1 s.next_op
      hA hAp hApin hselfA hstA hblA hdepsA
  have hdepsAnil : ((gum_v8_object_operation_new s owner none hcl).1.ops
      s.next_op).pending_dependencies = [] := by
    rw [new_ops_apply, if_pos rfl]
  have hstep : step s (Event.newOperation owner deps hcl) =
      some (gum_v8_object_operation_try_schedule_when_idle t s.next_op) := by
    simp only [step]
    rw [if_pos (And.intro howner hdeps)]
    simp only [gum_v8_object_operation_schedule_when_idle]
    rw [show (gum_v8_object_operation_new s owner none hcl).2 = s.next_op from rfl, htEq]
  have htselfStatus : (t.ops s.next_op).status = OpStatus.created := by
    rw [htself]
    exact hstA
  have hselft : s.next_op ∈ t.live_ops := by
    obtain ⟨fresh, hfl, hfy⟩ := htfresh
    rw [hfl]
    exact List.mem_append_left _ hselfA
  refine ⟨gum_v8_object_operation_try_schedule_when_idle t s.next_op, hstep,
    core_try htc hselft htselfStatus, probe_try htp, pin_try htpin, ?_, probes, ?_, ?_, ?_⟩
  · intro h
    obtain ⟨pushL, hpl, hply⟩ := htqueue h
    rw [new_objs] at hpl
    rw [new_next] at hply
    have hq2 : ∃ push2 : List Nat,
        ((gum_v8_object_operation_try_schedule_when_idle t s.next_op).objs h).pending_operations =
          (t.objs h).pending_operations ++ push2 ∧ ∀ y ∈ push2, y = s.next_op := by
      by_cases hpd : (t.ops s.next_op).pending_dependencies = []
      · by_cases hn : (t.objs (t.ops s.next_op).object).num_active_operations = 0
        · refine ⟨[], ?_, by simp⟩
          rw [try_of_idle t s.next_op hpd hn, schedule_objs_apply]
          by_cases hh : h = (t.ops s.next_op).object
          · rw [if_pos hh, hh]
            simp
          · rw [if_neg hh]
            simp
        · rw [push_objs_apply t s.next_op h hpd hn]
          by_cases hh : h = (t.ops s.next_op).object
          · rw [if_pos hh, hh]
            exact ⟨[s.next_op], rfl, by simp⟩
          · rw [if_neg hh]
            exact ⟨[], by simp, by simp⟩
      · rw [try_of_pending t s.next_op hpd]
        exact ⟨[], by simp, by simp⟩
    obtain ⟨push2, hp2, hp2y⟩ := hq2
    refine ⟨pushL ++ push2, ?_, ?_⟩
    · rw [hp2, hpl, List.append_assoc]
    · intro y hy
      rcases List.mem_append.1 hy with hy1 | hy2

      · have := hply y hy1
        omega
      · rw [hp2y y hy2]
  · rw [try_deps t s.next_op s.next_op, htself]
    show probes.reverse ++
      ((gum_v8_object_operation_new s owner none hcl).1.ops s.next_op).pending_dependencies =
      probes.reverse
    rw [hdepsAnil]
    exact List.append_nil _
  · have hAobjs : busyDeps (gum_v8_object_operation_new s owner none hcl).1 deps =
        busyDeps s deps :=
      List.filter_congr (fun x hx => by rw [new_objs])
    rw [← hAobjs, ← htmap]
    refine List.map_congr_left ?_
    intro q hq
    have hfresh2 := (htprobes q hq).2.2.2
    rw [new_next] at hfresh2
    have hqne : q ≠ s.next_op := by omega
    rw [try_ops_ne t s.next_op q hqne]
  · intro q hq
    obtain ⟨hb1, hb2, hb3, hb4⟩ := htprobes q hq
    rw [new_next] at hb4
    have hqne : q ≠ s.next_op := by omega
    rw [try_ops_ne t s.next_op q hqne]
    exact ⟨hb1, hb2, hb3, by omega⟩

/-- Every event of the scheduler preserves the full invariant. -/
theorem inv_step {s s' : ManagerState} {e : Event}
    (hc : CoreInv s) (hpr : ProbeInv s) (hpin : PinInv s)
    (hstep : step s e = some s') :
    CoreInv s' ∧ ProbeInv s' ∧ PinInv s' := by
  cases e with
  | register h =>
    simp only [step] at hstep
    by_cases hmem : h ∈ s.object_by_handle
    · rw [if_pos hmem] at hstep
      cases hstep
    · rw [if_neg hmem] at hstep
      injection hstep with hs'
      subst hs'
      have hreg' : (gum_v8_object_manager_add s h).object_by_handle =
          h :: s.object_by_handle := by
        simp [gum_v8_object_manager_add, if_neg hmem]
      have hobjs' : ∀ h2, (gum_v8_object_manager_add s h).objs h2 =
          if h2 = h then
            { num_active_operations := 0, pending_operations := [], cancelled := false }
          else s.objs h2 := by
        intro h2
        show upd s.objs h _ h2 = _
        by_cases hh : h2 = h
        · rw [hh, upd_same, if_pos rfl]
        · rw [upd_ne _ _ hh, if_neg hh]
      refine ⟨⟨hc.live_lt, hc.live_nodup, hc.dead_freed, hc.live_not_freed, ?_, ?_, ?_, ?_,
        hc.started_no_deps, hc.deps_live, hc.deps_nodup, hc.probe_no_deps⟩, hpr, hpin⟩
      · intro j hj
        rw [hreg']
        exact List.mem_cons_of_mem _ (hc.owner_reg j hj)
      · intro h2
        rw [hobjs' h2]
        by_cases hh : h2 = h
        · rw [if_pos hh]
          have hz : (s.objs h2).num_active_operations = 0 :=
            count_zero_of_unreg hc (hh ▸ hmem)
          have h0 := hc.count_eq h2
          rw [hz] at h0
          exact h0
        · rw [if_neg hh]
          exact hc.count_eq h2
      · intro h2 j hj
        rw [hobjs' h2] at hj
        by_cases hh : h2 = h
        · rw [if_pos hh] at hj
          simp at hj
        · rw [if_neg hh] at hj
          exact hc.queue_mem h2 j hj
      · intro h2
        rw [hobjs' h2]
        by_cases hh : h2 = h
        · rw [if_pos hh]
          exact List.nodup_nil
        · rw [if_neg hh]
          exact hc.queue_nodup h2
  | newOperation owner deps hcl =>
    have hguard : owner ∈ s.object_by_handle ∧ ∀ d ∈ deps, d ∈ s.object_by_handle := by
      by_contra hg
      simp only [step] at hstep
      rw [if_neg hg] at hstep
      cases hstep
    obtain ⟨s2, hstep2, hc', hpr', hpin', _, _⟩ :=
      newOperation_facts hc hpr hpin hguard.1 hguard.2
    rw [hstep2] at hstep
    injection hstep with he
    rw [← he]
    exact ⟨hc', hpr', hpin'⟩
  | complete i =>
    simp only [step] at hstep
    by_cases hg : i ∈ s.live_ops ∧ (s.ops i).status = OpStatus.running
    · rw [if_pos hg] at hstep
      rcases hb : (s.ops i).blocked_operation with _ | b
      · rw [hb] at hstep
        injection hstep with he
        rw [← he]
        have hnd : ∀ j, i ∉ (s.ops j).pending_dependencies := by
          intro j hj
          have hbk := (hc.deps_live j i hj).2
          rw [hb] at hbk
          cases hbk
        exact ⟨core_free hc hg.1 hg.2 hnd, probe_free hpr, pin_free hpin hg.1⟩
      · rw [hb] at hstep
        injection hstep with he
        rw [← he]
        exact inv_perform hc hpr hpin hg.1 hg.2 hb
    · rw [if_neg hg] at hstep
      cases hstep
  | cancel h =>
    simp only [step] at hstep
    injection hstep with he
    rw [← he]
    by_cases hmem : h ∈ s.object_by_handle
    · have heq : (gum_v8_object_manager_cancel s h).2 =
          { s with objs := upd s.objs h { s.objs h with cancelled := true } } := by
        simp [gum_v8_object_manager_cancel, if_pos hmem]
      rw [heq]
      have hobjs' : ∀ h2, (upd s.objs h { s.objs h with cancelled := true }) h2 =
          if h2 = h then { s.objs h with cancelled := true } else s.objs h2 := by
        intro h2
        by_cases hh : h2 = h
        · rw [hh, upd_same, if_pos rfl]
        · rw [upd_ne _ _ hh, if_neg hh]
      refine ⟨⟨hc.live_lt, hc.live_nodup, hc.dead_freed, hc.live_not_freed, hc.owner_reg,
        ?_, ?_, ?_, hc.started_no_deps, hc.deps_live, hc.deps_nodup, hc.probe_no_deps⟩,
        hpr, hpin⟩
      · intro h2
        show (upd s.objs h { s.objs h with cancelled := true } h2).num_active_operations = _
        rw [hobjs' h2]
        by_cases hh : h2 = h
        · rw [if_pos hh]
          show (s.objs h).num_active_operations = _
          rw [← hh]
          exact hc.count_eq h2
        · rw [if_neg hh]
          exact hc.count_eq h2
      · intro h2 j hj
        replace hj : j ∈ (upd s.objs h { s.objs h with cancelled := true } h2).pending_operations :=
          hj
        rw [hobjs' h2] at hj
        by_cases hh : h2 = h
        · rw [if_pos hh] at hj
          replace hj : j ∈ (s.objs h).pending_operations := hj
          rw [← hh] at hj
          exact hc.queue_mem h2 j hj
        · rw [if_neg hh] at hj
          exact hc.queue_mem h2 j hj
      · intro h2
        show ((upd s.objs h { s.objs h with cancelled := true } h2).pending_operations).Nodup
        rw [hobjs' h2]
        by_cases hh : h2 = h
        · rw [if_pos hh]
          show ((s.objs h).pending_operations).Nodup
          rw [← hh]
          exact hc.queue_nodup h2
        · rw [if_neg hh]
          exact hc.queue_nodup h2
    · have heq : (gum_v8_object_manager_cancel s h).2 = s := by
        simp [gum_v8_object_manager_cancel, if_neg hmem]
      rw [heq]
      exact ⟨hc, hpr, hpin⟩
  | flush =>
    simp only [step] at hstep
    injection hstep with he
    rw [← he]
    have hobjs' : ∀ h2, ((gum_v8_object_manager_flush s).objs h2).num_active_operations =
        (s.objs h2).num_active_operations ∧
        ((gum_v8_object_manager_flush s).objs h2).pending_operations =
        (s.objs h2).pending_operations := by
      intro h2
      by_cases hh : h2 ∈ s.object_by_handle
      · constructor
        · show (if h2 ∈ s.object_by_handle then { s.objs h2 with cancelled := true }
            else s.objs h2).num_active_operations = _
          rw [if_pos hh]
        · show (if h2 ∈ s.object_by_handle then { s.objs h2 with cancelled := true }
            else s.objs h2).pending_operations = _
          rw [if_pos hh]
      · constructor
        · show (if h2 ∈ s.object_by_handle then { s.objs h2 with cancelled := true }
            else s.objs h2).num_active_operations = _
          rw [if_neg hh]
        · show (if h2 ∈ s.object_by_handle then { s.objs h2 with cancelled := true }
            else s.objs h2).pending_operations = _
          rw [if_neg hh]
    refine ⟨⟨hc.live_lt, hc.live_nodup, hc.dead_freed, hc.live_not_freed, hc.owner_reg,
      ?_, ?_, ?_, hc.started_no_deps, hc.deps_live, hc.deps_nodup, hc.probe_no_deps⟩,
      hpr, hpin⟩
    · intro h2
      rw [(hobjs' h2).1]
      exact hc.count_eq h2
    · intro h2 j hj
      rw [(hobjs' h2).2] at hj
      exact hc.queue_mem h2 j hj
    · intro h2
      rw [(hobjs' h2).2]
      exact hc.queue_nodup h2
  | finalize h =>
    simp only [step] at hstep
    by_cases hg : h ∈ s.object_by_handle ∧ livesOn s h = false
    · rw [if_pos hg] at hstep
      injection hstep with he
      rw [← he]
      have hno : ∀ i ∈ s.live_ops, (s.ops i).object ≠ h := by
        intro i hi
        have := hg.2
        rw [livesOn, List.any_eq_false] at this
        have h2 := this i hi
        simpa using h2
      refine ⟨⟨hc.live_lt, hc.live_nodup, hc.dead_freed, hc.live_not_freed, ?_,
        hc.count_eq, hc.queue_mem, hc.queue_nodup, hc.started_no_deps, hc.deps_live,
        hc.deps_nodup, hc.probe_no_deps⟩, hpr, hpin⟩
      intro j hj
      show (s.ops j).object ∈ s.object_by_handle.erase h
      exact (List.mem_erase_of_ne (hno j hj)).mpr (hc.owner_reg j hj)
    · rw [if_neg hg] at hstep
      cases hstep
  | moduleNew =>
    simp only [step] at hstep
    injection hstep with he
    rw [← he]
    refine ⟨⟨hc.live_lt, hc.live_nodup, hc.dead_freed, hc.live_not_freed, hc.owner_reg,
      hc.count_eq, hc.queue_mem, hc.queue_nodup, hc.started_no_deps, hc.deps_live,
      hc.deps_nodup, hc.probe_no_deps⟩, hpr, ?_⟩
    show s.pins + 1 = s.live_ops.length + (s.module_ops + 1)
    unfold PinInv at hpin
    omega
  | moduleComplete =>
    simp only [step] at hstep
    by_cases hg : 0 < s.module_ops
    · rw [if_pos hg] at hstep
      injection hstep with he
      rw [← he]
      refine ⟨⟨hc.live_lt, hc.live_nodup, hc.dead_freed, hc.live_not_freed, hc.owner_reg,
        hc.count_eq, hc.queue_mem, hc.queue_nodup, hc.started_no_deps, hc.deps_live,
        hc.deps_nodup, hc.probe_no_deps⟩, hpr, ?_⟩
      show s.pins - 1 = s.live_ops.length + (s.module_ops - 1)
      unfold PinInv at hpin
      omega
    · rw [if_neg hg] at hstep
      cases hstep
  | teardown =>
    simp only [step] at hstep
    by_cases hg : s.live_ops = [] ∧ s.module_ops = 0
    · rw [if_pos hg] at hstep
      injection hstep with he
      rw [← he]
      refine ⟨⟨hc.live_lt, hc.live_nodup, hc.dead_freed, hc.live_not_freed, ?_,
        hc.count_eq, hc.queue_mem, hc.queue_nodup, hc.started_no_deps, hc.deps_live,
        hc.deps_nodup, hc.probe_no_deps⟩, hpr, hpin⟩
      intro j hj
      replace hj : j ∈ s.live_ops := hj
      rw [hg.1] at hj
      cases hj
    · rw [if_neg hg] at hstep
      cases hstep

/-- The invariant holds in the initial state. -/
theorem inv_init : CoreInv initState ∧ ProbeInv initState ∧ PinInv initState := by
  refine ⟨⟨?_, ?_, ?_, ?_, ?_, ?_, ?_, ?_, ?_, ?_, ?_, ?_⟩, ?_, ?_⟩ <;>
    simp [initState, CoreInv, ProbeInv, PinInv, runningOn]

/-- The invariant holds in every reachable state. -/
theorem run_inv : ∀ es s0 s, CoreInv s0 ∧ ProbeInv s0 ∧ PinInv s0 →
    run s0 es = some s → CoreInv s ∧ ProbeInv s ∧ PinInv s := by
  intro es
  induction es with
  | nil =>
    intro s0 s h0 hr
    simp only [run] at hr
    injection hr with he
    rw [← he]
    exact h0
  | cons e rest ih =>
    intro s0 s h0 hr
    simp only [run] at hr
    rcases hs1 : step s0 e with _ | s1
    · rw [hs1] at hr
      cases hr
    · rw [hs1] at hr
      exact ih s1 s (inv_step h0.1 h0.2.1 h0.2.2 hs1) hr

/-- The invariant holds in every state reachable from the fresh manager. -/
theorem reachable_inv {s : ManagerState} (h : Reachable s) :
    CoreInv s ∧ ProbeInv s ∧ PinInv s := by
  obtain ⟨es, hes⟩ := h
  exact run_inv es initState s inv_init hes

/-- `gum_v8_object_operation_free` either leaves a queue unchanged or pops
exactly its head, scheduling the popped operation (no other queue shape
change is possible). -/
theorem free_queue_effect (s : ManagerState) (i h : Nat) :
    ((gum_v8_object_operation_free s i).1.objs h).pending_operations =
      (s.objs h).pending_operations ∨
    (∃ x q2, (s.objs h).pending_operations = x :: q2 ∧
      ((gum_v8_object_operation_free s i).1.objs h).pending_operations = q2 ∧
      ((gum_v8_object_operation_free s i).1.ops x).status = OpStatus.running) := by
  by_cases hn : (s.objs (s.ops i).object).num_active_operations - 1 = 0
  · rcases hq : (s.objs (s.ops i).object).pending_operations with _ | ⟨next, rest⟩
    · left
      rw [free_fst_stay s i (Or.inr hq)]
      show (upd s.objs (s.ops i).object _ h).pending_operations = _
      by_cases hh : h = (s.ops i).object
      · rw [hh, upd_same]
      · rw [upd_ne _ _ hh]
    · by_cases hh : h = (s.ops i).object
      · right
        refine ⟨next, rest, by rw [hh]; exact hq, ?_, ?_⟩
        · rw [free_fst_pop s i next rest hn hq]
          show ((gum_v8_object_operation_schedule _ next).objs h).pending_operations = rest
          rw [schedule_objs_apply]
          by_cases hh2 : h = ((({ s with
              ops := upd s.ops i { s.ops i with status := OpStatus.freed }
              live_ops := s.live_ops.erase i
              objs := upd s.objs (s.ops i).object
                { s.objs (s.ops i).object with
                  num_active_operations := 0
                  pending_operations := rest } } : ManagerState).ops next).object)
          · rw [if_pos hh2, ← hh2]
            show (upd s.objs (s.ops i).object
              { s.objs (s.ops i).object with
                num_active_operations := 0
                pending_operations := rest } h).pending_operations = rest
            rw [hh, upd_same]
          · rw [if_neg hh2]
            show (upd s.objs (s.ops i).object
              { s.objs (s.ops i).object with
                num_active_operations := 0
                pending_operations := rest } h).pending_operations = rest
            rw [hh, upd_same]
        · rw [free_fst_pop s i next rest hn hq]
          show ((gum_v8_object_operation_schedule _ next).ops next).status = OpStatus.running
          rw [schedule_ops_apply, if_pos rfl]
      · left
        rw [free_fst_pop s i next rest hn hq]
        show ((gum_v8_object_operation_schedule _ next).objs h).pending_operations = _
        rw [schedule_objs_apply]
        by_cases hh2 : h = ((({ s with
            ops := upd s.ops i { s.ops i with status := OpStatus.freed }
            live_ops := s.live_ops.erase i
            objs := upd s.objs (s.ops i).object
              { s.objs (s.ops i).object with
                num_active_operations := 0
                pending_operations := rest } } : ManagerState).ops next).object)
        · rw [if_pos hh2, ← hh2]
          show (upd s.objs (s.ops i).object
            { s.objs (s.ops i).object with
              num_active_operations := 0
              pending_operations := rest } h).pending_operations = _
          rw [upd_ne _ _ hh]
        · rw [if_neg hh2]
          show (upd s.objs (s.ops i).object
            { s.objs (s.ops i).object with
              num_active_operations := 0
              pending_operations := rest } h).pending_operations = _
          rw [upd_ne _ _ hh]
  · left
    rw [free_fst_stay s i (Or.inl hn)]
    show (upd s.objs (s.ops i).object _ h).pending_operations = _
    by_cases hh : h = (s.ops i).object
    · rw [hh, upd_same]
    · rw [upd_ne _ _ hh]

/-- `gum_v8_object_operation_try_schedule_when_idle` either leaves a queue
unchanged or pushes exactly the operation at the tail. -/
theorem try_queue_effect (s : ManagerState) (i h : Nat) :
    ((gum_v8_object_operation_try_schedule_when_idle s i).objs h).pending_operations =
      (s.objs h).pending_operations ∨
    ((gum_v8_object_operation_try_schedule_when_idle s i).objs h).pending_operations =
      (s.objs h).pending_operations ++ [i] := by
  by_cases hpd : (s.ops i).pending_dependencies = []
  · by_cases hn : (s.objs (s.ops i).object).num_active_operations = 0
    · left
      rw [try_of_idle s i hpd hn, schedule_objs_apply]
      by_cases hh : h = (s.ops i).object
      · rw [if_pos hh]
        show (s.objs (s.ops i).object).pending_operations = _
        rw [hh]
      · rw [if_neg hh]
    · rw [push_objs_apply s i h hpd hn]
      by_cases hh : h = (s.ops i).object
      · right
        rw [if_pos hh]
        show (s.objs (s.ops i).object).pending_operations ++ [i] = _
        rw [hh]
      · left
        rw [if_neg hh]
  · left
    rw [try_of_pending s i hpd]

/-- Queue evolution across any event: a queue either grows at the tail by
operations that were not previously queued there, or additionally has its
head popped — and the popped head has been started. Enqueueing happens only
at the tail, dequeueing only at the head. -/
theorem step_queue {s s' : ManagerState} {e : Event}
    (hc : CoreInv s) (hpr : ProbeInv s) (hpin : PinInv s)
    (hstep : step s e = some s') (h : Nat) :
    (∃ t, (s'.objs h).pending_operations = (s.objs h).pending_operations ++ t ∧
       ∀ y ∈ t, y ∉ (s.objs h).pending_operations) ∨
    (∃ t x q2, (∀ y ∈ t, y ∉ (s.objs h).pending_operations) ∧
       (s.objs h).pending_operations ++ t = x :: q2 ∧
       (s'.objs h).pending_operations = q2 ∧ (s'.ops x).status = OpStatus.running) := by
  cases e with
  | register h2 =>
    simp only [step] at hstep
    by_cases hmem : h2 ∈ s.object_by_handle
    · rw [if_pos hmem] at hstep
      cases hstep
    · rw [if_neg hmem] at hstep
      injection hstep with he
      rw [← he]
      left
      refine ⟨[], ?_, by simp⟩
      rw [List.append_nil]
      show (upd s.objs h2 _ h).pending_operations = _
      by_cases hh : h = h2
      · rw [hh, upd_same]
        show ([] : List Nat) = _
        rw [queue_empty_of_unreg hc (hh ▸ hmem)]
      · rw [upd_ne _ _ hh]
  | newOperation owner deps hcl =>
    have hguard : owner ∈ s.object_by_handle ∧ ∀ d ∈ deps, d ∈ s.object_by_handle := by
      by_contra hg
      simp only [step] at hstep
      rw [if_neg hg] at hstep
      cases hstep
    obtain ⟨s2, hstep2, _, _, _, hqueue, _⟩ :=
      newOperation_facts hc hpr hpin hguard.1 hguard.2
    rw [hstep2] at hstep
    injection hstep with he
    rw [← he]
    obtain ⟨push, hpq, hpy⟩ := hqueue h
    left
    refine ⟨push, hpq, ?_⟩
    intro y hy hymem
    have hylt := hc.live_lt y (hc.queue_mem h y hymem).1
    have := hpy y hy
    omega
  | complete i =>
    simp only [step] at hstep
    by_cases hg : i ∈ s.live_ops ∧ (s.ops i).status = OpStatus.running
    · rw [if_pos hg] at hstep
      rcases hb : (s.ops i).blocked_operation with _ | b
      · rw [hb] at hstep
        injection hstep with he
        rw [← he]
        rcases free_queue_effect s i h with hfq | ⟨x, q2, hx1, hx2, hx3⟩
        · left
          exact ⟨[], by rw [List.append_nil]; exact hfq, by simp⟩
        · right
          exact ⟨[], x, q2, by simp, by rw [List.append_nil]; exact hx1, hx2, hx3⟩
      · rw [hb] at hstep
        injection hstep with he
        rw [← he]
        -- the probe fires: deps-erase (queues unchanged), try for b, free of i
        have hpb : i ∈ (s.ops b).pending_dependencies := hpr i hg.1 b hb
        have hbst : (s.ops b).status = OpStatus.created := by
          by_contra hne2
          rw [hc.started_no_deps b hne2] at hpb
          simp at hpb
        have hbq : ∀ h2, b ∉ (s.objs h2).pending_operations := by
          intro h2 hmem2
          have := (hc.queue_mem h2 b hmem2).2.2
          rw [hbst] at this
          simp at this
        have hperf : gum_v8_try_schedule_if_idle_operation_perform s i =
            (gum_v8_object_operation_free
              (gum_v8_object_operation_try_schedule_when_idle
                { s with
                  ops := upd s.ops b
                    { s.ops b with
                      pending_dependencies := (s.ops b).pending_dependencies.erase i } } b)
              i).1 := by
          simp only [gum_v8_try_schedule_if_idle_operation_perform]
          rw [hb]
        rw [hperf]
        have hq1 : ∀ h2, (({ s with
            ops := upd s.ops b
              { s.ops b with
                pending_dependencies := (s.ops b).pending_dependencies.erase i } } :
            ManagerState).objs h2).pending_operations = (s.objs h2).pending_operations :=
          fun h2 => rfl
        rcases try_queue_effect
            { s with
              ops := upd s.ops b
                { s.ops b with
                  pending_dependencies := (s.ops b).pending_dependencies.erase i } } b h with
          ht1 | ht1 <;>
        rcases free_queue_effect
            (gum_v8_object_operation_try_schedule_when_idle
              { s with
                ops := upd s.ops b
                  { s.ops b with
                    pending_dependencies := (s.ops b).pending_dependencies.erase i } } b) i h with
          hf1 | ⟨x, q2, hx1, hx2, hx3⟩
        · left
          refine ⟨[], ?_, by simp⟩
          rw [List.append_nil, hf1, ht1, hq1 h]
        · right
          rw [ht1, hq1 h] at hx1
          exact ⟨[], x, q2, by simp, by rw [List.append_nil]; exact hx1, hx2, hx3⟩
        · left
          refine ⟨[b], ?_, ?_⟩
          · rw [hf1, ht1, hq1 h]
          · intro y hy
            rw [List.mem_singleton] at hy
            rw [hy]
            exact hbq h
        · right
          rw [ht1, hq1 h] at hx1
          refine ⟨[b], x, q2, ?_, hx1, hx2, hx3⟩
          intro y hy
          rw [List.mem_singleton] at hy
          rw [hy]
          exact hbq h
    · rw [if_neg hg] at hstep
      cases hstep
  | cancel h2 =>
    simp only [step] at hstep
    injection hstep with he
    rw [← he]
    left
    refine ⟨[], ?_, by simp⟩
    rw [List.append_nil]
    by_cases hmem : h2 ∈ s.object_by_handle
    · have heq : (gum_v8_object_manager_cancel s h2).2 =
          { s with objs := upd s.objs h2 { s.objs h2 with cancelled := true } } := by
        simp [gum_v8_object_manager_cancel, if_pos hmem]
      rw [heq]
      show (upd s.objs h2 _ h).pending_operations = _
      by_cases hh : h = h2
      · rw [hh, upd_same]
      · rw [upd_ne _ _ hh]
    · have heq : (gum_v8_object_manager_cancel s h2).2 = s := by
        simp [gum_v8_object_manager_cancel, if_neg hmem]
      rw [heq]
  | flush =>
    simp only [step] at hstep
    injection hstep with he
    rw [← he]
    left
    refine ⟨[], ?_, by simp⟩
    rw [List.append_nil]
    show (if h ∈ s.object_by_handle then { s.objs h with cancelled := true }
      else s.objs h).pending_operations = _
    by_cases hh : h ∈ s.object_by_handle
    · rw [if_pos hh]
    · rw [if_neg hh]
  | finalize h2 =>
    simp only [step] at hstep
    by_cases hg : h2 ∈ s.object_by_handle ∧ livesOn s h2 = false
    · rw [if_pos hg] at hstep
      injection hstep with he
      rw [← he]
      left
      exact ⟨[], by rw [List.append_nil]; rfl, by simp⟩
    · rw [if_neg hg] at hstep
      cases hstep
  | moduleNew =>
    simp only [step] at hstep
    injection hstep with he
    rw [← he]
    left
    exact ⟨[], by rw [List.append_nil]; rfl, by simp⟩
  | moduleComplete =>
    simp only [step] at hstep
    by_cases hg : 0 < s.module_ops
    · rw [if_pos hg] at hstep
      injection hstep with he
      rw [← he]
      left
      exact ⟨[], by rw [List.append_nil]; rfl, by simp⟩
    · rw [if_neg hg] at hstep
      cases hstep
  | teardown =>
    simp only [step] at hstep
    by_cases hg : s.live_ops = [] ∧ s.module_ops = 0
    · rw [if_pos hg] at hstep
      injection hstep with he
      rw [← he]
      left
      exact ⟨[], by rw [List.append_nil]; rfl, by simp⟩
    · rw [if_neg hg] at hstep
      cases hstep

theorem precedesIn_mem_right {a b : Nat} :
    ∀ {l : List Nat}, precedesIn a b l = true → b ∈ l := by
  intro l
  induction l with
  | nil => intro h; simp [precedesIn] at h
  | cons x xs ih =>
    intro h
    simp only [precedesIn] at h
    by_cases hx : x = a
    · rw [if_pos hx] at h
      rw [decide_eq_true_eq] at h
      exact List.mem_cons_of_mem _ h
    · rw [if_neg hx] at h
      exact List.mem_cons_of_mem _ (ih h)

theorem precedesIn_mem_left {a b : Nat} :
    ∀ {l : List Nat}, precedesIn a b l = true → a ∈ l := by
  intro l
  induction l with
  | nil => intro h; simp [precedesIn] at h
  | cons x xs ih =>
    intro h
    simp only [precedesIn] at h
    by_cases hx : x = a
    · rw [hx]
      exact List.mem_cons_self _ _
    · rw [if_neg hx] at h
      exact List.mem_cons_of_mem _ (ih h)

theorem precedesIn_append {a b : Nat} :
    ∀ {l : List Nat} (t : List Nat), precedesIn a b l = true →
      precedesIn a b (l ++ t) = true := by
  intro l
  induction l with
  | nil => intro t h; simp [precedesIn] at h
  | cons x xs ih =>
    intro t h
    rw [List.cons_append]
    simp only [precedesIn] at h ⊢
    by_cases hx : x = a
    · rw [if_pos hx] at h ⊢
      rw [decide_eq_true_eq] at h
      rw [decide_eq_true_eq]
      exact List.mem_append_left _ h
    · rw [if_neg hx] at h ⊢
      exact ih t h

theorem precedesIn_head {a b : Nat} {l : List Nat} (h : precedesIn a b (a :: l) = true) :
    b ∈ l := by
  simp [precedesIn] at h
  exact h

theorem precedesIn_tail {a b x : Nat} {l : List Nat} (hx : x ≠ a) :
    precedesIn a b (x :: l) = precedesIn a b l := by
  simp [precedesIn, hx]

/-- C1 (counterexample): with handle 0 already present in the registry (and
its token cancelled so the old entry is distinguishable), a second
`_gum_v8_object_manager_add` of handle 0 does not fail and does not leave the
registry unchanged: the old ManagedObject is destroyed (the
`gum_v8_object_free` ghost counter increments) and the entry is replaced by a
fresh object whose token is not cancelled. -/
theorem gum_spec_c1_counterexample :
    ((gum_v8_object_manager_cancel (gum_v8_object_manager_add initState 0) 0).2.object_by_handle
      = [0]) ∧
    (((gum_v8_object_manager_cancel (gum_v8_object_manager_add initState 0) 0).2.objs
      0).cancelled = true) ∧
    (((gum_v8_object_manager_add
        (gum_v8_object_manager_cancel (gum_v8_object_manager_add initState 0) 0).2 0).objs
      0).cancelled = false) ∧
    ((gum_v8_object_manager_add
        (gum_v8_object_manager_cancel (gum_v8_object_manager_add initState 0) 0).2
        0).freed_objects =
      (gum_v8_object_manager_cancel (gum_v8_object_manager_add initState 0) 0).2.freed_objects
        + 1) := by
  decide

/-- C1 (amended): for every handle already present in the registry, a
subsequent registration of that same handle does not fail:
`g_hash_table_insert` keeps the key set unchanged but replaces the stored
entry with the newly created ManagedObject (counter 0, empty queue, fresh
token), destroying the previously registered ManagedObject through the
table's value-destroy function `gum_v8_object_free`; objects under other
handles, the operation table, the live set and the pin count are untouched. -/
theorem gum_spec_c1_amended : ∀ (s : ManagerState) (handle : Nat),
    handle ∈ s.object_by_handle →
    (gum_v8_object_manager_add s handle).object_by_handle = s.object_by_handle ∧
    (gum_v8_object_manager_add s handle).objs handle =
      { num_active_operations := 0, pending_operations := [], cancelled := false } ∧
    (gum_v8_object_manager_add s handle).freed_objects = s.freed_objects + 1 ∧
    (∀ h2, h2 ≠ handle → (gum_v8_object_manager_add s handle).objs h2 = s.objs h2) ∧
    (gum_v8_object_manager_add s handle).ops = s.ops ∧
    (gum_v8_object_manager_add s handle).live_ops = s.live_ops ∧
    (gum_v8_object_manager_add s handle).pins = s.pins := by
  intro s handle hmem
  refine ⟨?_, ?_, ?_, ?_, rfl, rfl, rfl⟩
  · show (if handle ∈ s.object_by_handle then s.object_by_handle
      else handle :: s.object_by_handle) = s.object_by_handle
    rw [if_pos hmem]
  · show upd s.objs handle _ handle = _
    rw [upd_same]
  · show (if handle ∈ s.object_by_handle then s.freed_objects + 1 else s.freed_objects) = _
    rw [if_pos hmem]
  · intro h2 hne
    show upd s.objs handle _ h2 = _
    rw [upd_ne _ _ hne]

theorem gum_spec_c1_witness :
    ((gum_v8_object_manager_add (gum_v8_object_manager_add initState 0) 0).object_by_handle =
      (gum_v8_object_manager_add initState 0).object_by_handle) ∧
    ((gum_v8_object_manager_add (gum_v8_object_manager_add initState 0) 0).freed_objects =
      (gum_v8_object_manager_add initState 0).freed_objects + 1) ∧
    ((gum_v8_object_manager_add (gum_v8_object_manager_add initState 0) 0).live_ops =
      (gum_v8_object_manager_add initState 0).live_ops) := by
  obtain ⟨h1, h2, h3, h4, h5, h6, h7⟩ :=
    gum_spec_c1_amended (gum_v8_object_manager_add initState 0) 0 (by decide)
  exact ⟨h1, h3, h6⟩

/-- C2: in every reachable state, whenever a ManagedObject is about to be
destroyed — by the finalizer-triggered removal (`gum_v8_object_on_weak_notify`
→ `g_hash_table_remove` → `gum_v8_object_free`) or by teardown
(`gum_v8_object_manager_free` → `g_hash_table_remove_all`) — its
`num_active_operations` is 0 and its `pending_operations` queue is empty, so
the defensive assertions of `gum_v8_object_free` never fire. -/
theorem gum_spec_c2 : ∀ (es : List Event) (s : ManagerState),
    run initState es = some s →
    (∀ handle s', step s (Event.finalize handle) = some s' →
      (s.objs handle).num_active_operations = 0 ∧ (s.objs handle).pending_operations = []) ∧
    (∀ s', step s Event.teardown = some s' →
      ∀ handle ∈ s.object_by_handle,
        (s.objs handle).num_active_operations = 0 ∧
        (s.objs handle).pending_operations = []) := by
  intro es s hrun
  obtain ⟨hc, hpr, hpin⟩ := run_inv es initState s inv_init hrun
  constructor
  · intro handle s' hstep
    have hg : handle ∈ s.object_by_handle ∧ livesOn s handle = false := by
      by_contra hgg
      simp only [step] at hstep
      rw [if_neg hgg] at hstep
      cases hstep
    have hno : ∀ i ∈ s.live_ops, (s.ops i).object ≠ handle := by
      intro i hi
      have h2 := hg.2
      rw [livesOn, List.any_eq_false] at h2
      simpa using h2 i hi
    exact object_idle_of_no_live hc hno
  · intro s' hstep handle hmem
    have hg : s.live_ops = [] ∧ s.module_ops = 0 := by
      by_contra hgg
      simp only [step] at hstep
      rw [if_neg hgg] at hstep
      cases hstep
    refine object_idle_of_no_live hc ?_
    intro i hi
    rw [hg.1] at hi
    cases hi

theorem gum_spec_c2_witness :
    ∃ s s1 s2, run initState [Event.register 0] = some s ∧
      step s (Event.finalize 0) = some s1 ∧
      step s Event.teardown = some s2 ∧
      (s.objs 0).num_active_operations = 0 ∧ (s.objs 0).pending_operations = [] := by
  obtain ⟨hfin, htear⟩ := gum_spec_c2 [Event.register 0] _ rfl
  refine ⟨_, _, _, rfl, rfl, rfl, ?_, ?_⟩
  · exact (hfin 0 _ rfl).1
  · exact (hfin 0 _ rfl).2

/-- C3: the dependency barrier is an AND-join. Scheduling an operation when
idle with dependency list `deps` creates probes whose owners are exactly the
busy dependencies (`busyDeps`): no probe for an idle dependency, and — when
`deps` has no duplicates — no dependency probed twice; each probe points back
at the new operation, is freshly allocated, and starts with no dependencies
of its own. In every state reachable afterwards, the operation has not
started while any probe of it remains unresolved (its status is still
`created` while `pending_dependencies` is non-empty), and once it is running
every probe that pointed at it has been freed — independent of resolution
order. -/
theorem gum_spec_c3 : ∀ (es : List Event) (s : ManagerState) (owner : Nat)
    (deps : List Nat) (hcl : Bool) (s' : ManagerState),
    run initState es = some s →
    step s (Event.newOperation owner deps hcl) = some s' →
    (∃ probes : List Nat,
      (s'.ops s.next_op).pending_dependencies = probes.reverse ∧
      probes.map (fun q => (s'.ops q).object) = busyDeps s deps ∧
      ∀ q ∈ probes, (s'.ops q).blocked_operation = some s.next_op ∧
        (s'.ops q).pending_dependencies = [] ∧
        (s'.ops q).status = OpStatus.queued ∧ q ∉ s.live_ops) ∧
    (deps.Nodup → (busyDeps s deps).Nodup) ∧
    (∀ es2 t2, run s' es2 = some t2 →
      ((t2.ops s.next_op).pending_dependencies ≠ [] →
        (t2.ops s.next_op).status = OpStatus.created) ∧
      ((t2.ops s.next_op).status = OpStatus.running →
        ∀ p, (t2.ops p).blocked_operation = some s.next_op →
          (t2.ops p).status = OpStatus.freed)) := by
  intro es s owner deps hcl s' hrun hstep
  obtain ⟨hc, hpr, hpin⟩ := run_inv es initState s inv_init hrun
  have hguard : owner ∈ s.object_by_handle ∧ ∀ d ∈ deps, d ∈ s.object_by_handle := by
    by_contra hg
    simp only [step] at hstep
    rw [if_neg hg] at hstep
    cases hstep
  obtain ⟨s2x, hstep2, hc2, hpr2, hpin2, hqueue, probes, h1, h2, h3⟩ :=
    newOperation_facts hc hpr hpin hguard.1 hguard.2
  rw [hstep2] at hstep
  injection hstep with he
  subst he
  refine ⟨⟨probes, h1, h2, ?_⟩, ?_, ?_⟩
  · intro q hq2
    obtain ⟨hb1, hb2, hb3, hb4⟩ := h3 q hq2
    refine ⟨hb1, hb2, hb3, fun hmem => ?_⟩
    have := hc.live_lt q hmem
    omega
  · intro hnd
    exact hnd.filter _
  · intro es2 t2 hrun2
    obtain ⟨hct, hprt, hpint⟩ := run_inv es2 s2x t2 ⟨hc2, hpr2, hpin2⟩ hrun2
    constructor
    · intro hne
      by_contra hst
      exact hne (hct.started_no_deps s.next_op hst)
    · intro hst p hbp
      by_cases hpl : p ∈ t2.live_ops
      · exfalso
        have hdep := hprt p hpl _ hbp
        rw [hct.started_no_deps s.next_op (by rw [hst]; simp)] at hdep
        simp at hdep
      · exact hct.dead_freed p hpl

theorem gum_spec_c3_witness :
    ∃ s s' t2, run initState [Event.register 0, Event.register 1,
        Event.newOperation 0 [] false] = some s ∧
      step s (Event.newOperation 1 [0] false) = some s' ∧
      run s' [Event.complete 0, Event.complete 2] = some t2 ∧
      (t2.ops s.next_op).status = OpStatus.running ∧
      (∀ p, (t2.ops p).blocked_operation = some s.next_op →
        (t2.ops p).status = OpStatus.freed) ∧
      ∃ probes : List Nat,
        (s'.ops s.next_op).pending_dependencies = probes.reverse ∧
        probes.map (fun q => (s'.ops q).object) = busyDeps s [0] := by
  obtain ⟨⟨probes, h1, h2, h3⟩, hnd, hcont⟩ :=
    gum_spec_c3 [Event.register 0, Event.register 1, Event.newOperation 0 [] false]
      _ 1 [0] false _ rfl rfl
  refine ⟨_, _, _, rfl, rfl, rfl, by decide, ?_, probes, h1, h2⟩
  intro p hp
  exact (hcont [Event.complete 0, Event.complete 2] _ rfl).2 (by decide) p hp

/-- C4: `gum_v8_object_operation_try_schedule_when_idle` behaves exactly as
specified — with non-empty pending dependencies it does nothing; otherwise,
with the owner's counter at zero, it equals
`_gum_v8_object_operation_schedule` (incrementing the counter and marking the
job started); otherwise it appends the operation at the tail of the owner's
pending queue without touching any counter. -/
theorem gum_spec_c4 : ∀ (s : ManagerState) (i : Nat),
    ((s.ops i).pending_dependencies ≠ [] →
      gum_v8_object_operation_try_schedule_when_idle s i = s) ∧
    ((s.ops i).pending_dependencies = [] →
      (s.objs (s.ops i).object).num_active_operations = 0 →
      gum_v8_object_operation_try_schedule_when_idle s i =
        gum_v8_object_operation_schedule s i ∧
      ((gum_v8_object_operation_try_schedule_when_idle s i).objs
        (s.ops i).object).num_active_operations =
        (s.objs (s.ops i).object).num_active_operations + 1 ∧
      ((gum_v8_object_operation_try_schedule_when_idle s i).ops i).status =
        OpStatus.running) ∧
    ((s.ops i).pending_dependencies = [] →
      (s.objs (s.ops i).object).num_active_operations ≠ 0 →
      ((gum_v8_object_operation_try_schedule_when_idle s i).objs
        (s.ops i).object).pending_operations =
        (s.objs (s.ops i).object).pending_operations ++ [i] ∧
      (∀ h, ((gum_v8_object_operation_try_schedule_when_idle s i).objs
        h).num_active_operations = (s.objs h).num_active_operations) ∧
      ((gum_v8_object_operation_try_schedule_when_idle s i).ops i).status =
        OpStatus.queued) := by
  intro s i
  refine ⟨?_, ?_, ?_⟩
  · intro hpd
    exact try_of_pending s i hpd
  · intro hpd hn
    refine ⟨try_of_idle s i hpd hn, ?_, ?_⟩
    · rw [try_of_idle s i hpd hn, schedule_objs_apply, if_pos rfl]
    · rw [try_of_idle s i hpd hn, schedule_ops_apply, if_pos rfl]
  · intro hpd hn
    refine ⟨?_, ?_, ?_⟩
    · rw [push_objs_apply s i _ hpd hn, if_pos rfl]
    · intro h
      rw [push_objs_apply s i h hpd hn]
      by_cases hh : h = (s.ops i).object
      · rw [if_pos hh, hh]
      · rw [if_neg hh]
    · rw [push_ops_apply s i i hpd hn, if_pos rfl]

theorem gum_spec_c4_witness :
    (gum_v8_object_operation_try_schedule_when_idle initState 0 =
      gum_v8_object_operation_schedule initState 0) ∧
    (∃ s1, run initState [Event.register 0, Event.newOperation 0 [] false] = some s1 ∧
      ((gum_v8_object_operation_try_schedule_when_idle s1 5).objs 0).pending_operations =
        (s1.objs 0).pending_operations ++ [5] ∧
      ((gum_v8_object_operation_try_schedule_when_idle s1 5).ops 5).status =
        OpStatus.queued) ∧
    (∃ s2, run initState [Event.register 0, Event.register 1, Event.newOperation 0 [] false,
        Event.newOperation 1 [0] false] = some s2 ∧
      gum_v8_object_operation_try_schedule_when_idle s2 1 = s2) := by
  refine ⟨((gum_spec_c4 initState 0).2.1 rfl rfl).1, ⟨_, rfl, ?_, ?_⟩, ⟨_, rfl, ?_⟩⟩
  · exact ((gum_spec_c4 _ 5).2.2 (by decide) (by decide)).1
  · exact ((gum_spec_c4 _ 5).2.2 (by decide) (by decide)).2.2
  · exact (gum_spec_c4 _ 1).1 (by decide)

/-- C5: on every object-operation completion
(`gum_v8_object_operation_free`), the micro-actions happen in source order:
the registered cleanup runs (when registered), the captured persistent
references are released, the owner's counter is decremented, and exactly when
the counter reaches zero with a non-empty queue the head is popped and
scheduled immediately; the runtime pin is released last. -/
theorem gum_spec_c5 : ∀ (s : ManagerState) (i : Nat),
    (gum_v8_object_operation_free s i).2 =
      (if (s.ops i).has_cleanup then [FreeAction.runCleanup] else []) ++
      [FreeAction.releaseRefs, FreeAction.decrementCount] ++
      (if (s.objs (s.ops i).object).num_active_operations - 1 = 0 ∧
          (s.objs (s.ops i).object).pending_operations ≠ [] then
        [FreeAction.scheduleNext]
      else []) ++ [FreeAction.releasePin] ∧
    ((gum_v8_object_operation_free s i).2).getLast? = some FreeAction.releasePin := by
  intro s i
  have htrace : (gum_v8_object_operation_free s i).2 =
      (if (s.ops i).has_cleanup then [FreeAction.runCleanup] else []) ++
      [FreeAction.releaseRefs, FreeAction.decrementCount] ++
      (if (s.objs (s.ops i).object).num_active_operations - 1 = 0 ∧
          (s.objs (s.ops i).object).pending_operations ≠ [] then
        [FreeAction.scheduleNext]
      else []) ++ [FreeAction.releasePin] := by
    by_cases hn : (s.objs (s.ops i).object).num_active_operations - 1 = 0
    · rcases hq : (s.objs (s.ops i).object).pending_operations with _ | ⟨next, rest⟩
      · simp [gum_v8_object_operation_free, upd_same, hq, hn]
      · simp [gum_v8_object_operation_free, upd_same, hq, hn]
    · simp [gum_v8_object_operation_free, hn]
  refine ⟨htrace, ?_⟩
  rw [htrace]
  by_cases h1 : (s.ops i).has_cleanup <;>
    by_cases h2 : (s.objs (s.ops i).object).num_active_operations - 1 = 0 ∧
      (s.objs (s.ops i).object).pending_operations ≠ [] <;>
    simp [h1, h2]

/-- C6: per-object queueing is FIFO. Enqueue is only ever at the tail
(`g_queue_push_tail`) and dequeue only at the head (`g_queue_pop_head`): in
any reachable state, if A precedes B in some object's pending queue, then
after any single event B is still enqueued and either A still precedes B, or
A has been popped and started (its job is running) while B waits. -/
theorem gum_spec_c6 : ∀ (es : List Event) (s : ManagerState) (e : Event)
    (s' : ManagerState) (h A B : Nat),
    run initState es = some s →
    step s e = some s' →
    precedesIn A B ((s.objs h).pending_operations) = true →
    B ∈ (s'.objs h).pending_operations ∧
    (precedesIn A B ((s'.objs h).pending_operations) = true ∨
      ((s'.ops A).status = OpStatus.running ∧ A ∉ (s'.objs h).pending_operations)) := by
  intro es s e s' h A B hrun hstep hAB
  obtain ⟨hc, hpr, hpin⟩ := run_inv es initState s inv_init hrun
  rcases step_queue hc hpr hpin hstep h with ⟨t, hq, hfresh⟩ |
    ⟨t, x, q2, hfresh, hsplit, hq', hxrun⟩
  · constructor
    · rw [hq]
      exact List.mem_append_left _ (precedesIn_mem_right hAB)
    · left
      rw [hq]
      exact precedesIn_append t hAB
  · rcases hqs : (s.objs h).pending_operations with _ | ⟨y, q3⟩
    · rw [hqs] at hAB
      simp [precedesIn] at hAB
    · rw [hqs] at hsplit hAB
      rw [List.cons_append] at hsplit
      injection hsplit with hy hrest
      have hndq : (y :: q3).Nodup := by
        have hnq := hc.queue_nodup h
        rw [hqs] at hnq
        exact hnq
      by_cases hAy : y = A
      · refine ⟨?_, Or.inr ⟨?_, ?_⟩⟩
        · rw [hq', ← hrest]
          rw [hAy] at hAB
          exact List.mem_append_left _ (precedesIn_head hAB)
        · have hAx : A = x := hAy ▸ hy
          rw [hAx]
          exact hxrun
        · rw [hq', ← hrest]
          intro hmem
          rcases List.mem_append.1 hmem with hm1 | hm2
          · have hym : y ∈ q3 := by rw [hAy]; exact hm1
            exact (List.nodup_cons.mp hndq).1 hym
          · refine hfresh A hm2 ?_
            rw [hqs, hAy]
            exact List.mem_cons_self _ _
      · rw [precedesIn_tail hAy] at hAB
        refine ⟨?_, Or.inl ?_⟩
        · rw [hq', ← hrest]
          exact List.mem_append_left _ (precedesIn_mem_right hAB)
        · rw [hq', ← hrest]
          exact precedesIn_append t hAB

theorem gum_spec_c6_witness :
    ∃ s s', run initState [Event.register 0, Event.newOperation 0 [] false,
        Event.newOperation 0 [] false, Event.newOperation 0 [] false] = some s ∧
      step s (Event.complete 0) = some s' ∧
      precedesIn 1 2 ((s.objs 0).pending_operations) = true ∧
      2 ∈ (s'.objs 0).pending_operations ∧
      (precedesIn 1 2 ((s'.objs 0).pending_operations) = true ∨
        ((s'.ops 1).status = OpStatus.running ∧
          1 ∉ (s'.objs 0).pending_operations)) := by
  obtain ⟨hB, hdisj⟩ := gum_spec_c6 [Event.register 0, Event.newOperation 0 [] false,
    Event.newOperation 0 [] false, Event.newOperation 0 [] false] _ (Event.complete 0)
    _ 0 1 2 rfl rfl (by decide)
  exact ⟨_, _, rfl, rfl, by decide, hB, hdisj⟩

/-- C7: in every reachable state the runtime pin count equals the number of
live object operations (probes included) plus the number of live module
operations; in particular it is never negative, and it returns to its initial
value (zero) once all outstanding operations of both kinds have completed,
for any finite schedule. -/
theorem gum_spec_c7 : ∀ (es : List Event) (s : ManagerState),
    run initState es = some s →
    s.pins = s.live_ops.length + s.module_ops ∧
    (s.live_ops = [] → s.module_ops = 0 → s.pins = initState.pins) := by
  intro es s hrun
  obtain ⟨hc, hpr, hpin⟩ := run_inv es initState s inv_init hrun
  refine ⟨hpin, ?_⟩
  intro h1 h2
  unfold PinInv at hpin
  rw [h1, h2] at hpin
  simpa using hpin

theorem gum_spec_c7_witness :
    ∃ s, run initState [Event.register 0, Event.newOperation 0 [] false, Event.moduleNew,
        Event.complete 0, Event.moduleComplete] = some s ∧
      s.pins = s.live_ops.length + s.module_ops ∧ s.pins = initState.pins := by
  obtain ⟨h1, h2⟩ := gum_spec_c7 [Event.register 0, Event.newOperation 0 [] false,
    Event.moduleNew, Event.complete 0, Event.moduleComplete] _ rfl
  exact ⟨_, rfl, h1, h2 (by decide) (by decide)⟩

/-- C8: `gum_v8_object_manager_cancel` returns TRUE exactly when the handle
is present in the registry, in which case it cancels that object's token and
changes nothing else; for an absent handle it returns FALSE and leaves the
state completely unchanged. -/
theorem gum_spec_c8 : ∀ (s : ManagerState) (handle : Nat),
    ((gum_v8_object_manager_cancel s handle).1 = true ↔ handle ∈ s.object_by_handle) ∧
    (handle ∈ s.object_by_handle →
      ((gum_v8_object_manager_cancel s handle).2.objs handle).cancelled = true ∧
      (∀ h2, h2 ≠ handle →
        (gum_v8_object_manager_cancel s handle).2.objs h2 = s.objs h2) ∧
      ((gum_v8_object_manager_cancel s handle).2.objs handle).num_active_operations =
        (s.objs handle).num_active_operations ∧
      ((gum_v8_object_manager_cancel s handle).2.objs handle).pending_operations =
        (s.objs handle).pending_operations ∧
      (gum_v8_object_manager_cancel s handle).2.object_by_handle = s.object_by_handle ∧
      (gum_v8_object_manager_cancel s handle).2.ops = s.ops ∧
      (gum_v8_object_manager_cancel s handle).2.live_ops = s.live_ops ∧
      (gum_v8_object_manager_cancel s handle).2.pins = s.pins ∧
      (gum_v8_object_manager_cancel s handle).2.manager_cancelled = s.manager_cancelled) ∧
    (handle ∉ s.object_by_handle → (gum_v8_object_manager_cancel s handle).2 = s) := by
  intro s handle
  refine ⟨?_, ?_, ?_⟩
  · by_cases hmem : handle ∈ s.object_by_handle
    · simp [gum_v8_object_manager_cancel, hmem]
    · simp [gum_v8_object_manager_cancel, hmem]
  · intro hmem
    have heq : (gum_v8_object_manager_cancel s handle).2 =
        { s with objs := upd s.objs handle { s.objs handle with cancelled := true } } := by
      simp [gum_v8_object_manager_cancel, if_pos hmem]
    rw [heq]
    refine ⟨?_, ?_, ?_, ?_, rfl, rfl, rfl, rfl, rfl⟩
    · show (upd s.objs handle _ handle).cancelled = true
      rw [upd_same]
    · intro h2 hne
      show upd s.objs handle _ h2 = _
      rw [upd_ne _ _ hne]
    · show (upd s.objs handle _ handle).num_active_operations = _
      rw [upd_same]
    · show (upd s.objs handle _ handle).pending_operations = _
      rw [upd_same]
  · intro hmem
    simp [gum_v8_object_manager_cancel, if_neg hmem]

theorem gum_spec_c8_witness :
    ((gum_v8_object_manager_cancel (gum_v8_object_manager_add initState 0) 0).1 = true) ∧
    (((gum_v8_object_manager_cancel (gum_v8_object_manager_add initState 0) 0).2.objs
      0).cancelled = true) ∧
    ((gum_v8_object_manager_cancel (gum_v8_object_manager_add initState 0) 1).1 = false) ∧
    ((gum_v8_object_manager_cancel (gum_v8_object_manager_add initState 0) 1).2 =
      gum_v8_object_manager_add initState 0) := by
  have hmem : (0 : Nat) ∈ (gum_v8_object_manager_add initState 0).object_by_handle := by
    decide
  have hnmem : (1 : Nat) ∉ (gum_v8_object_manager_add initState 0).object_by_handle := by
    decide
  refine ⟨?_, ?_, ?_, ?_⟩
  · exact (gum_spec_c8 (gum_v8_object_manager_add initState 0) 0).1.mpr hmem
  · exact ((gum_spec_c8 (gum_v8_object_manager_add initState 0) 0).2.1 hmem).1
  · decide
  · exact (gum_spec_c8 (gum_v8_object_manager_add initState 0) 1).2.2 hnmem

/-- C9: `gum_v8_object_manager_flush` cancels the token of every
ManagedObject currently in the registry and the registry-wide token, and
changes nothing else: no entry is removed, no counter, pending queue, live
operation, pin or module-operation count is altered, and objects outside the
registry are untouched. -/
theorem gum_spec_c9 : ∀ s : ManagerState,
    (gum_v8_object_manager_flush s).manager_cancelled = true ∧
    (∀ h ∈ s.object_by_handle, ((gum_v8_object_manager_flush s).objs h).cancelled = true) ∧
    (gum_v8_object_manager_flush s).object_by_handle = s.object_by_handle ∧
    (∀ h, ((gum_v8_object_manager_flush s).objs h).num_active_operations =
      (s.objs h).num_active_operations ∧
      ((gum_v8_object_manager_flush s).objs h).pending_operations =
        (s.objs h).pending_operations) ∧
    (gum_v8_object_manager_flush s).ops = s.ops ∧
    (gum_v8_object_manager_flush s).live_ops = s.live_ops ∧
    (gum_v8_object_manager_flush s).pins = s.pins ∧
    (gum_v8_object_manager_flush s).module_ops = s.module_ops ∧
    (gum_v8_object_manager_flush s).freed_objects = s.freed_objects ∧
    (∀ h, h ∉ s.object_by_handle → (gum_v8_object_manager_flush s).objs h = s.objs h) := by
  intro s
  refine ⟨rfl, ?_, rfl, ?_, rfl, rfl, rfl, rfl, rfl, ?_⟩
  · intro h hmem
    show (if h ∈ s.object_by_handle then { s.objs h with cancelled := true }
      else s.objs h).cancelled = true
    rw [if_pos hmem]
  · intro h
    constructor
    · show (if h ∈ s.object_by_handle then { s.objs h with cancelled := true }
        else s.objs h).num_active_operations = _
      by_cases hh : h ∈ s.object_by_handle
      · rw [if_pos hh]
      · rw [if_neg hh]
    · show (if h ∈ s.object_by_handle then { s.objs h with cancelled := true }
        else s.objs h).pending_operations = _
      by_cases hh : h ∈ s.object_by_handle
      · rw [if_pos hh]
      · rw [if_neg hh]
  · intro h hmem
    show (if h ∈ s.object_by_handle then { s.objs h with cancelled := true }
      else s.objs h) = s.objs h
    rw [if_neg hmem]

theorem gum_spec_c9_witness :
    ((gum_v8_object_manager_flush (gum_v8_object_manager_add initState 0)).manager_cancelled =
      true) ∧
    (((gum_v8_object_manager_flush (gum_v8_object_manager_add initState 0)).objs 0).cancelled =
      true) ∧
    ((gum_v8_object_manager_flush (gum_v8_object_manager_add initState 0)).object_by_handle =
      (gum_v8_object_manager_add initState 0).object_by_handle) ∧
    ((gum_v8_object_manager_flush (gum_v8_object_manager_add initState 0)).objs 1 =
      (gum_v8_object_manager_add initState 0).objs 1) := by
  obtain ⟨h1, h2, h3, h4, h5, h6, h7, h8, h9, h10⟩ :=
    gum_spec_c9 (gum_v8_object_manager_add initState 0)
  exact ⟨h1, h2 0 (by decide), h3, h10 1 (by decide)⟩

/-- C10: probes are leaf-level operations — in every reachable state, every
operation carrying a `blocked_operation` pointer (i.e. every
`GumV8TryScheduleIfIdleOperation` probe) has an empty `pending_dependencies`
list, for its entire lifetime; probes never create nested barriers. -/
theorem gum_spec_c10 : ∀ (es : List Event) (s : ManagerState),
    run initState es = some s →
    ∀ p b, (s.ops p).blocked_operation = some b →
      (s.ops p).pending_dependencies = [] := by
  intro es s hrun p b hb
  obtain ⟨hc, hpr, hpin⟩ := run_inv es initState s inv_init hrun
  exact hc.probe_no_deps p b hb

theorem gum_spec_c10_witness :
    ∃ s, run initState [Event.register 0, Event.register 1, Event.newOperation 0 [] false,
        Event.newOperation 1 [0] false] = some s ∧
      (s.ops 2).blocked_operation = some 1 ∧
      (s.ops 2).pending_dependencies = [] := by
  refine ⟨_, rfl, by decide, ?_⟩
  exact gum_spec_c10 [Event.register 0, Event.register 1, Event.newOperation 0 [] false,
    Event.newOperation 1 [0] false] _ rfl 2 1 (by decide)

end GumV8Object
